import Mathlib

/-!
Shallow embedding of the `task-queue` library (src/Bucket.ts, src/PriorityQueue.ts,
src/TaskQueue.ts) and proofs of its specified properties.

Tasks are modelled as opaque labels (`Nat`); "invoking" a task appends its label
to an invocation log.  JavaScript `Map`s with auto-incrementing string keys are
modelled as association lists with a `Nat` counter.  The host's timer facility
(`setTimeout` / `clearTimeout`) is modelled explicitly: each timer gets a fresh
handle, a fire time (`creation time + delay`) and fires only when the clock has
reached that time.
-/

namespace TaskQueueModel

/-- The two runtime errors the library can produce: the explicit `Out of Range`
error thrown by `PriorityQueue.guard`, and the TypeError JavaScript raises when
an out-of-bounds (negative) bucket index is dereferenced. -/
inductive JSError where
  | outOfRange
  | typeError
deriving DecidableEq, Repr

/-! ## Bucket (src/Bucket.ts)

A wrapper around a native `Map` that assigns an auto-incrementing ID to each
inserted value.  The `Map` is insertion ordered and keys are never reused, so it
is an association list plus a counter. -/

structure Bucket (T : Type) where
  bucket : List (Nat × T)
  nextID : Nat
deriving DecidableEq, Repr

namespace Bucket

/-- A freshly constructed bucket: empty map, counter at zero. -/
def empty (T : Type) : Bucket T := ⟨[], 0⟩

/-- `enqueue`: adds an item and returns its unique ID. -/
def enqueue (b : Bucket T) (item : T) : Nat × Bucket T :=
  (b.nextID, ⟨b.bucket ++ [(b.nextID, item)], b.nextID + 1⟩)

/-- `dequeue`: removes and returns the first item, `none` if empty. -/
def dequeue (b : Bucket T) : Option T × Bucket T :=
  match b.bucket with
  | [] => (none, b)
  | (_, item) :: rest => (some item, ⟨rest, b.nextID⟩)

/-- `peek`: the first `(ID, item)` entry, without removal. -/
def peek (b : Bucket T) : Option (Nat × T) :=
  match b.bucket with
  | [] => none
  | e :: _ => some e

/-- `delete`: removes the entry with the given ID; returns whether anything was
removed.  Deleting an absent ID is a no-op returning `false`. -/
def delete (b : Bucket T) (i : Nat) : Bool × Bucket T :=
  (b.bucket.any (fun e => e.1 == i), ⟨b.bucket.filter (fun e => e.1 ≠ i), b.nextID⟩)

/-- `clear`: removes all entries (the ID counter is not reset). -/
def clear (b : Bucket T) : Bucket T := ⟨[], b.nextID⟩

/-- `length`: number of stored entries. -/
def length (b : Bucket T) : Nat := b.bucket.length

/-- `isEmpty`: whether the bucket holds no items. -/
def isEmpty (b : Bucket T) : Bool := b.bucket.length == 0

/-- The stored values in insertion order (for specification purposes). -/
def values (b : Bucket T) : List T := b.bucket.map Prod.snd

end Bucket

/-! ## PriorityQueue (src/PriorityQueue.ts)

A bucket queue over a fixed number of buckets; index 0 is the highest
priority.  Bucket indices are `Int` because the guard only validates the upper
bound (`priority > max`): a negative index passes the guard and then blows up
as a TypeError on the array access, exactly as in JavaScript. -/

/-- JavaScript array indexing `xs[i]` for a possibly negative index. -/
def getAtInt (l : List α) (i : Int) : Option α :=
  if i < 0 then none else l.get? i.toNat

/-- Replace the element at (non-negative, in-range) index `i`. -/
def setAtInt (l : List α) (i : Int) (a : α) : List α :=
  if i < 0 then l else l.set i.toNat a

structure PriorityQueue (T : Type) where
  max : Int
  buckets : List (Bucket T)
deriving DecidableEq, Repr

namespace PriorityQueue

/-- `new PriorityQueue(n)`: `max = n - 1` and `n` freshly initialized buckets. -/
def new (T : Type) (n : Nat) : PriorityQueue T :=
  ⟨(n : Int) - 1, List.replicate n (Bucket.empty T)⟩

/-- `guard`: throws the Out of Range error iff `priority > max`.  Nothing is
checked from below. -/
def guardThrows (q : PriorityQueue T) (priority : Int) : Bool :=
  priority > q.max

/-- `enqueue(item, priority)`: guard, then insert into `buckets[priority]`.
Returns the fresh ID and the updated queue. -/
def enqueue (q : PriorityQueue T) (item : T) (priority : Int) :
    Except JSError (Nat × PriorityQueue T) :=
  if q.guardThrows priority then .error .outOfRange
  else
    match getAtInt q.buckets priority with
    | none => .error .typeError
    | some b =>
      let r := b.enqueue item
      .ok (r.1, { q with buckets := setAtInt q.buckets priority r.2 })

/-- `dequeue` over the bucket list: scan from index 0, dequeue from the first
non-empty bucket. -/
def dequeueBuckets : List (Bucket T) → Option T × List (Bucket T)
  | [] => (none, [])
  | b :: rest =>
    if b.length ≠ 0 then
      let r := b.dequeue
      (r.1, r.2 :: rest)
    else
      let r := dequeueBuckets rest
      (r.1, b :: r.2)

/-- `dequeue()`: removes and returns the highest-priority item. -/
def dequeue (q : PriorityQueue T) : Option T × PriorityQueue T :=
  let r := dequeueBuckets q.buckets
  (r.1, { q with buckets := r.2 })

/-- `peek()`: the highest-priority `(ID, item)` entry, without removal. -/
def peek (q : PriorityQueue T) : Option (Nat × T) :=
  match q.buckets.find? (fun b => b.length ≠ 0) with
  | none => none
  | some b => b.peek

/-- `getBucket(priority)`: guarded direct access to one bucket. -/
def getBucket (q : PriorityQueue T) (priority : Int) : Except JSError (Bucket T) :=
  if q.guardThrows priority then .error .outOfRange
  else
    match getAtInt q.buckets priority with
    | none => .error .typeError
    | some b => .ok b

/-- `isEmpty`: no bucket holds an item. -/
def isEmpty (q : PriorityQueue T) : Bool :=
  q.buckets.all (fun b => b.length == 0)

/-- `length`: total number of items across buckets. -/
def length (q : PriorityQueue T) : Nat :=
  (q.buckets.map Bucket.length).sum

/-- `delete(ID, priority)`: guarded; forwards to that bucket's `delete`. -/
def delete (q : PriorityQueue T) (i : Nat) (priority : Int) :
    Except JSError (Bool × PriorityQueue T) :=
  if q.guardThrows priority then .error .outOfRange
  else
    match getAtInt q.buckets priority with
    | none => .error .typeError
    | some b =>
      let r := b.delete i
      .ok (r.1, { q with buckets := setAtInt q.buckets priority r.2 })

/-- `clear()`: clears every bucket. -/
def clear (q : PriorityQueue T) : PriorityQueue T :=
  { q with buckets := q.buckets.map Bucket.clear }

/-- All stored values, level-major (level 0 first), FIFO within a level:
the logical drain order of the queue. -/
def allValues (q : PriorityQueue T) : List T :=
  (q.buckets.map Bucket.values).flatten

end PriorityQueue

/-! ## TaskQueue (src/TaskQueue.ts)

The scheduler state.  Prioritized tasks are opaque labels (`Nat`).  The
`subscriptions` bucket holds either a user `onComplete` callback or the
internal `removeJob` closure that `executeAll` enqueues to clear the
active-run marker.  The `internals` bucket holds the active run's cancel
capability, modelled as the run's cancel-token identifier.  The host timer
facility is part of the state: `activeTimers` is the set of pending
`setTimeout` registrations, `now` the host clock, `nextTimer` the fresh-handle
counter, and `invoked` the log of every task/callback invocation. -/

/-- An entry of the `subscriptions` bucket: a user completion callback, or the
`removeJob` closure created inside `executeAll` (which deletes `jobID` from
`internals` when invoked). -/
inductive SubEntry where
  | user (label : Nat)
  | removeJob (jobID : Nat)
deriving DecidableEq, Repr

/-- A pending host timer created by `setTimeout` inside `deferTask`: its
handle, the time at which it may fire, the deferred task's label, and the
`deferredTasks` registry ID its callback deletes on firing. -/
structure HostTimer where
  handle : Nat
  fireAt : Nat
  taskLabel : Nat
  regID : Nat
deriving DecidableEq, Repr

structure TaskQueue where
  autoRun : Bool
  taskSeparation : Nat
  mainThreadYieldTime : Nat
  tasks : PriorityQueue Nat
  subscriptions : Bucket SubEntry
  internals : Bucket Nat
  deferredTasks : Bucket Nat
  now : Nat
  nextTimer : Nat
  activeTimers : List HostTimer
  invoked : List Nat
  nextToken : Nat
  cancelledTokens : List Nat
  runsStarted : Nat
deriving DecidableEq, Repr

namespace TaskQueue

/-- `new TaskQueue({priorities, autoRun, taskSeparation, mainThreadYieldTime})`
over a fresh host environment (clock 0, no pending timers). -/
def new (priorities : Nat) (autoRun : Bool) (taskSeparation mainThreadYieldTime : Nat) :
    TaskQueue :=
  { autoRun := autoRun
    taskSeparation := taskSeparation
    mainThreadYieldTime := mainThreadYieldTime
    tasks := PriorityQueue.new Nat priorities
    subscriptions := Bucket.empty SubEntry
    internals := Bucket.empty Nat
    deferredTasks := Bucket.empty Nat
    now := 0
    nextTimer := 0
    activeTimers := []
    invoked := []
    nextToken := 0
    cancelledTokens := []
    runsStarted := 0 }

/-- What `executeAll` / `executeTasksWithPriority` hand back to the caller. -/
inductive ExecResult where
  /-- A new full run was started: the wrapped cancel function captures the
  run's token and the `internals` job ID it removes. -/
  | newRun (token jobID : Nat)
  /-- A run was already active: the stored cancel function was returned. -/
  | existing (token : Nat)
  /-- A level-scoped run was started; its cancel function only captures the
  run's token (nothing is recorded in `internals`). -/
  | scoped (token : Nat)
deriving DecidableEq, Repr

/-- The synchronous part of `cancellableExecution`: allocate a fresh cancel
token and schedule the asynchronous drain loop (counted by `runsStarted`).
The loop body itself runs later (modelled by `mainLoop`/`subsLoop` below). -/
def cancellableExecutionStart (s : TaskQueue) : Nat × TaskQueue :=
  (s.nextToken,
   { s with nextToken := s.nextToken + 1, runsStarted := s.runsStarted + 1 })

/-- `getCancelFN()`: the active run's stored cancel capability, if any. -/
def getCancelFN (s : TaskQueue) : Option Nat :=
  match s.internals.peek with
  | none => none
  | some e => some e.2

/-- The synchronous part of `executeAll(onComplete?, taskSeparation?)`:
enqueue `onComplete`, return the existing run's cancel function if one is
active, otherwise start a run, record its cancel function in `internals` and
enqueue the `removeJob` subscription. -/
def executeAll (s : TaskQueue) (onComplete : Option Nat) : ExecResult × TaskQueue :=
  let s0 :=
    match onComplete with
    | some cb => { s with subscriptions := (s.subscriptions.enqueue (.user cb)).2 }
    | none => s
  match s0.internals.peek with
  | some e => (.existing e.2, s0)
  | none =>
    let r1 := cancellableExecutionStart s0
    let r2 := r1.2.internals.enqueue r1.1
    let s2 := { r1.2 with internals := r2.2 }
    let s3 := { s2 with subscriptions := (s2.subscriptions.enqueue (.removeJob r2.1)).2 }
    (.newRun r1.1 r2.1, s3)

/-- `registerTask(task, priority)`: enqueue at internal level `priority - 1`
(the guard may throw before anything is inserted); when `autoRun` is set and
no run is active, call `executeAll()`.  Returns the cancel handle
`(ID, priority)` together with the new state. -/
def registerTask (s : TaskQueue) (label : Nat) (priority : Int) :
    Except JSError ((Nat × Int) × TaskQueue) :=
  match s.tasks.enqueue label (priority - 1) with
  | .error e => .error e
  | .ok r =>
    let s1 := { s with tasks := r.2 }
    let s2 :=
      if s1.autoRun ∧ s1.internals.peek = none then (s1.executeAll none).2 else s1
    .ok ((r.1, priority), s2)

/-- The cancel function returned by `registerTask`: deletes that entry from
its level. -/
def applyRegCancel (c : Nat × Int) (s : TaskQueue) : Except JSError TaskQueue :=
  match s.tasks.delete c.1 (c.2 - 1) with
  | .error e => .error e
  | .ok r => .ok { s with tasks := r.2 }

/-- `deferTask(task, delay)`: create a host timer firing no earlier than
`now + delay`, register its handle in `deferredTasks`, and hand back the
cancel pair (timer handle, registry ID). -/
def deferTask (s : TaskQueue) (label delay : Nat) : (Nat × Nat) × TaskQueue :=
  let timerH := s.nextTimer
  let r := s.deferredTasks.enqueue timerH
  let timer : HostTimer := ⟨timerH, s.now + delay, label, r.1⟩
  ((timerH, r.1),
   { s with nextTimer := timerH + 1,
            activeTimers := s.activeTimers ++ [timer],
            deferredTasks := r.2 })

/-- The cancel function returned by `deferTask`: `clearTimeout(timer)` and
delete the registry entry. -/
def applyDeferCancel (c : Nat × Nat) (s : TaskQueue) : TaskQueue :=
  { s with activeTimers := s.activeTimers.filter (fun t => t.handle ≠ c.1),
           deferredTasks := (s.deferredTasks.delete c.2).2 }

/-- The cancel function returned by `executeAll` for a new run: set the run's
cancel token and remove the active-run marker (`removeJob`). -/
def applyRunCancel (token jobID : Nat) (s : TaskQueue) : TaskQueue :=
  let s1 :=
    if token ∈ s.cancelledTokens then s
    else { s with cancelledTokens := token :: s.cancelledTokens }
  { s1 with internals := (s1.internals.delete jobID).2 }

/-- The host lets the clock advance one millisecond. -/
def tick (s : TaskQueue) : TaskQueue := { s with now := s.now + 1 }

/-- The host lets the clock advance `k` milliseconds. -/
def tickN (k : Nat) (s : TaskQueue) : TaskQueue := { s with now := s.now + k }

/-- Host timer lookup by handle. -/
def findTimer (s : TaskQueue) (h : Nat) : Option HostTimer :=
  s.activeTimers.find? (fun t => t.handle == h)

/-- Whether the host may fire timer `h` now: it is pending and its delay has
elapsed. -/
def canFire (s : TaskQueue) (h : Nat) : Bool :=
  match s.findTimer h with
  | none => false
  | some t => t.fireAt ≤ s.now

/-- The host fires timer `h` (if pending and due): the timer is consumed, the
`deferTask` callback runs the task and deletes its registry entry. -/
def fireTimer (s : TaskQueue) (h : Nat) : TaskQueue :=
  match s.findTimer h with
  | none => s
  | some t =>
    if t.fireAt ≤ s.now then
      { s with activeTimers := s.activeTimers.filter (fun x => x.handle ≠ h),
               invoked := s.invoked ++ [t.taskLabel],
               deferredTasks := (s.deferredTasks.delete t.regID).2 }
    else s

/-- The loop body of `clearDeferredTasks`: dequeue every registry entry and
`clearTimeout` the stored handle. -/
def clearDeferredAux (timers : List HostTimer) : List (Nat × Nat) → List HostTimer
  | [] => timers
  | (_, h) :: rest => clearDeferredAux (timers.filter (fun t => t.handle ≠ h)) rest

/-- `clearDeferredTasks()`: drain the deferred registry, cancelling each
stored host timer. -/
def clearDeferredTasks (s : TaskQueue) : TaskQueue :=
  { s with activeTimers := clearDeferredAux s.activeTimers s.deferredTasks.bucket,
           deferredTasks := ⟨[], s.deferredTasks.nextID⟩ }

/-- `clearPendingTasks()`: clear the priority queue, then the deferred
registry. -/
def clearPendingTasks (s : TaskQueue) : TaskQueue :=
  clearDeferredTasks { s with tasks := s.tasks.clear }

/-- The synchronous part of `executeTasksWithPriority(priority, sep,
onComplete?)`: enqueue `onComplete`, return the existing cancel function if a
run is active, else start a cancellable execution over
`tasks.getBucket(priority - 1)` (the guard may throw).  Nothing is recorded
in `internals`. -/
def executeTasksWithPriority (s : TaskQueue) (priority : Int) (onComplete : Option Nat) :
    Except JSError (ExecResult × TaskQueue) :=
  let s0 :=
    match onComplete with
    | some cb => { s with subscriptions := (s.subscriptions.enqueue (.user cb)).2 }
    | none => s
  match s0.internals.peek with
  | some e => .ok (.existing e.2, s0)
  | none =>
    match s0.tasks.getBucket (priority - 1) with
    | .error e => .error e
    | .ok _ =>
      let r := cancellableExecutionStart s0
      .ok (.scoped r.1, r.2)

end TaskQueue

/-! ## The asynchronous drain loop (`iterate` inside `cancellableExecution`)

The loop interleaves with the host, so the two things it reads from the
outside world — whether its cancel token has been set, and whether the host
reports input pending — are oracles indexed by the iteration counter. -/

/-- Oracles for one run of the loop: `cancelledAt i` is the value of the
run's `cancelToken` when iteration `i` checks it, `inputPendingAt i` the
host's `isInputPending()` answer at iteration `i`. -/
structure RunEnv where
  cancelledAt : Nat → Bool
  inputPendingAt : Nat → Bool

/-- A run that is never cancelled and never sees main-thread contention. -/
def noInterference : RunEnv := ⟨fun _ => false, fun _ => false⟩

/-- A run whose cancel function is invoked while iteration `k`'s separation
signal is pending: the token reads set from iteration `k` on. -/
def cancelAfter (k : Nat) : RunEnv := ⟨fun i => k ≤ i, fun _ => false⟩

namespace TaskQueue

/-- One full-queue run of the `for await` loop, driven by `this.tasks`:
while the queue is non-empty the generator yields a proceed signal; the loop
breaks if the cancel token is set, skips the dequeue while the host reports
contention, and otherwise dequeues one task and invokes it.  `fuel` bounds
the number of iterations. -/
def mainLoop (env : RunEnv) : Nat → Nat → TaskQueue → TaskQueue
  | 0, _, s => s
  | fuel + 1, i, s =>
    if s.tasks.isEmpty then s
    else if env.cancelledAt i then s
    else if env.inputPendingAt i then mainLoop env fuel (i + 1) s
    else
      let r := s.tasks.dequeue
      let s' :=
        match r.1 with
        | some t => { s with tasks := r.2, invoked := s.invoked ++ [t] }
        | none => { s with tasks := r.2 }
      mainLoop env fuel (i + 1) s'

/-- Invoking one subscriptions entry: a user completion callback is invoked;
the internal `removeJob` closure deletes its job from `internals`. -/
def applySubEntry (s : TaskQueue) : SubEntry → TaskQueue
  | .user l => { s with invoked := s.invoked ++ [l] }
  | .removeJob jobID => { s with internals := (s.internals.delete jobID).2 }

/-- The secondary run over `this.subscriptions` (task separation 0, fresh
cancel token that nobody else holds, hence never cancelled): dequeue and
invoke each entry while the contention oracle permits. -/
def subsLoop (pending : Nat → Bool) : Nat → Nat → TaskQueue → TaskQueue
  | 0, _, s => s
  | fuel + 1, i, s =>
    if s.subscriptions.isEmpty then s
    else if pending i then subsLoop pending fuel (i + 1) s
    else
      let r := s.subscriptions.dequeue
      let s' := { s with subscriptions := r.2 }
      let s'' :=
        match r.1 with
        | some e => applySubEntry s' e
        | none => s'
      subsLoop pending fuel (i + 1) s''

/-- The whole body of `iterate()` for a full-queue run: the main loop runs
until it stops (queue exhausted or token observed set), and then — in either
case — if `subscriptions` is non-empty a second cancellable execution drains
it with zero task separation.  Returns the final state and whether the
subscriptions drain was started. -/
def iterateRun (env : RunEnv) (fuelMain fuelSubs : Nat) (s : TaskQueue) :
    TaskQueue × Bool :=
  let s1 := mainLoop env fuelMain 0 s
  if s1.subscriptions.length ≠ 0 then
    (subsLoop (fun _ => false) fuelSubs 0 s1, true)
  else (s1, false)

/-- One step of the scheduler's loop over `this.tasks`: dequeue the
highest-priority task and invoke it. -/
def loopDequeueStep (s : TaskQueue) : TaskQueue :=
  let r := s.tasks.dequeue
  match r.1 with
  | some t => { s with tasks := r.2, invoked := s.invoked ++ [t] }
  | none => { s with tasks := r.2 }

/-- One step of the subscriptions drain: dequeue the first entry and invoke
it. -/
def subscriptionStep (s : TaskQueue) : TaskQueue :=
  let r := s.subscriptions.dequeue
  let s' := { s with subscriptions := r.2 }
  match r.1 with
  | some e => applySubEntry s' e
  | none => s'

end TaskQueue

/-! ## The global small-step relation

Everything that can happen to a scheduler: an API call, one iteration of a
drain loop, the host clock advancing, or the host firing a due timer.  Used
to state "never happens afterwards" properties. -/

open TaskQueue

inductive Step : TaskQueue → TaskQueue → Prop
  | tick (s : TaskQueue) : Step s s.tick
  | fire (s : TaskQueue) (h : Nat) (hf : s.canFire h = true) : Step s (s.fireTimer h)
  | register (s : TaskQueue) (l : Nat) (p : Int) (c : Nat × Int) (s' : TaskQueue)
      (h : s.registerTask l p = .ok (c, s')) : Step s s'
  | regCancel (s : TaskQueue) (c : Nat × Int) (s' : TaskQueue)
      (h : applyRegCancel c s = .ok s') : Step s s'
  | deferT (s : TaskQueue) (l d : Nat) : Step s (s.deferTask l d).2
  | deferCancel (s : TaskQueue) (c : Nat × Nat) : Step s (applyDeferCancel c s)
  | execAll (s : TaskQueue) (oc : Option Nat) : Step s (s.executeAll oc).2
  | execPrio (s : TaskQueue) (p : Int) (oc : Option Nat) (r : ExecResult) (s' : TaskQueue)
      (h : s.executeTasksWithPriority p oc = .ok (r, s')) : Step s s'
  | runCancel (s : TaskQueue) (t j : Nat) : Step s (applyRunCancel t j s)
  | clearPending (s : TaskQueue) : Step s s.clearPendingTasks
  | clearDeferred (s : TaskQueue) : Step s s.clearDeferredTasks
  | loopTask (s : TaskQueue) : Step s s.loopDequeueStep
  | subStep (s : TaskQueue) : Step s s.subscriptionStep

/-- Any number of steps. -/
def Steps : TaskQueue → TaskQueue → Prop := Relation.ReflTransGen Step

/-- Timer handle `h` has been consumed (cancelled, fired, or cleared): it is
not pending and, the handle counter having passed it, can never be pending
again. -/
def TimerDead (h : Nat) (s : TaskQueue) : Prop :=
  h < s.nextTimer ∧ ∀ t ∈ s.activeTimers, t.handle ≠ h

/-- Registry ID `r` has been removed from the `deferredTasks` registry and,
the ID counter having passed it, can never reappear. -/
def RegDead (r : Nat) (s : TaskQueue) : Prop :=
  r < s.deferredTasks.nextID ∧ ∀ e ∈ s.deferredTasks.bucket, e.1 ≠ r

/-- While the timer with handle `t0.handle` is pending, its entry is exactly
`t0`: host timers are immutable once created. -/
def TimerPinned (t0 : HostTimer) (s : TaskQueue) : Prop :=
  t0.handle < s.nextTimer ∧ ∀ t ∈ s.activeTimers, t.handle = t0.handle → t = t0

/-- How one step may change the timer world: the handle and registry-ID
counters only grow, and every pending timer / registry entry afterwards
either was already there or is fresh (its identifier at or above the old
counter). -/
def TimerEffect (s s' : TaskQueue) : Prop :=
  s.nextTimer ≤ s'.nextTimer ∧
  s.deferredTasks.nextID ≤ s'.deferredTasks.nextID ∧
  (∀ t ∈ s'.activeTimers, t ∈ s.activeTimers ∨ s.nextTimer ≤ t.handle) ∧
  (∀ e ∈ s'.deferredTasks.bucket, e ∈ s.deferredTasks.bucket ∨ s.deferredTasks.nextID ≤ e.1)

/-- Well-formedness of the host timer table: every pending timer's handle was
handed out by the counter.  Holds for every state reachable from a fresh
scheduler. -/
def TimersWF (s : TaskQueue) : Prop :=
  ∀ t ∈ s.activeTimers, t.handle < s.nextTimer

/-- The values stored at one priority level, in insertion order. -/
def levelValues {T : Type} (q : PriorityQueue T) (ℓ : Nat) : List T :=
  match q.buckets[ℓ]? with
  | some b => b.values
  | none => []

/-- All values across a bucket list, level-major, FIFO within a level. -/
def flatValues {T : Type} (bs : List (Bucket T)) : List T :=
  (bs.map Bucket.values).flatten

/-- Everything a full-queue run loop leaves untouched. -/
def SameExceptRun (s s' : TaskQueue) : Prop :=
  s'.subscriptions = s.subscriptions ∧ s'.internals = s.internals ∧
  s'.deferredTasks = s.deferredTasks ∧ s'.activeTimers = s.activeTimers ∧
  s'.now = s.now ∧ s'.nextTimer = s.nextTimer ∧ s'.nextToken = s.nextToken ∧
  s'.cancelledTokens = s.cancelledTokens ∧ s'.runsStarted = s.runsStarted ∧
  s'.autoRun = s.autoRun ∧ s'.taskSeparation = s.taskSeparation ∧
  s'.mainThreadYieldTime = s.mainThreadYieldTime ∧ s'.tasks.max = s.tasks.max

/-- The user completion callbacks among a subscriptions bucket's entries, in
order (the internal `removeJob` closures invoke no user code). -/
def subUserLabels : List (Nat × SubEntry) → List Nat
  | [] => []
  | (_, .user l) :: rest => l :: subUserLabels rest
  | (_, .removeJob _) :: rest => subUserLabels rest

/-- The cumulative effect of the `removeJob` closures in a subscriptions
bucket on the `internals` registry. -/
def deleteJobs (b : Bucket Nat) : List (Nat × SubEntry) → Bucket Nat
  | [] => b
  | (_, .user _) :: rest => deleteJobs b rest
  | (_, .removeJob j) :: rest => deleteJobs (b.delete j).2 rest

/-- Register a batch of `(task, priority)` pairs in order (`registerTask`'s
returned cancel functions are dropped; a registration that throws changes
nothing). -/
def registerAll (s : TaskQueue) : List (Nat × Nat) → TaskQueue
  | [] => s
  | (l, p) :: rest =>
    match s.registerTask l (p : Int) with
    | .ok r => registerAll r.2 rest
    | .error _ => registerAll s rest

/-- A concrete state with one task still queued and a completion subscription
pending: built by registering one task and starting `executeAll` with an
`onComplete` callback. -/
def c6state : TaskQueue :=
  match (TaskQueue.new 3 false 0 5).registerTask 5 1 with
  | .ok r => (r.2.executeAll (some 7)).2
  | .error _ => TaskQueue.new 3 false 0 5

theorem clearDeferredAux_subset {t : HostTimer} :
    ∀ (l : List (Nat × Nat)) (timers : List HostTimer),
      t ∈ TaskQueue.clearDeferredAux timers l → t ∈ timers := by
  intro l
  induction l with
  | nil => intro timers ht; exact ht
  | cons e rest ih =>
    intro timers ht
    have := ih (timers.filter (fun x => x.handle ≠ e.2)) ht
    exact List.mem_of_mem_filter this

theorem executeAll_timer_frame (s : TaskQueue) (oc : Option Nat) :
    (s.executeAll oc).2.activeTimers = s.activeTimers ∧
    (s.executeAll oc).2.nextTimer = s.nextTimer ∧
    (s.executeAll oc).2.deferredTasks = s.deferredTasks := by
  unfold TaskQueue.executeAll
  cases oc with
  | none => cases hp : s.internals.peek <;> simp [hp, cancellableExecutionStart]
  | some cb =>
    cases hp : ({ s with subscriptions := (s.subscriptions.enqueue (.user cb)).2 } :
        TaskQueue).internals.peek <;> simp [hp, cancellableExecutionStart]

theorem registerTask_timer_frame {s s' : TaskQueue} {l : Nat} {p : Int} {c : Nat × Int}
    (h : s.registerTask l p = .ok (c, s')) :
    s'.activeTimers = s.activeTimers ∧
    s'.nextTimer = s.nextTimer ∧
    s'.deferredTasks = s.deferredTasks := by
  unfold TaskQueue.registerTask at h
  cases he : s.tasks.enqueue l (p - 1) with
  | error e => rw [he] at h; exact absurd h (by simp)
  | ok r =>
    rw [he] at h
    simp only [Except.ok.injEq, Prod.mk.injEq] at h
    obtain ⟨-, h2⟩ := h
    by_cases hc : ({ s with tasks := r.2 } : TaskQueue).autoRun ∧
        ({ s with tasks := r.2 } : TaskQueue).internals.peek = none
    · rw [if_pos hc] at h2
      have := executeAll_timer_frame { s with tasks := r.2 } none
      rw [h2] at this
      simpa using this
    · rw [if_neg hc] at h2
      subst h2
      exact ⟨rfl, rfl, rfl⟩

theorem applyRegCancel_timer_frame {s s' : TaskQueue} {c : Nat × Int}
    (h : applyRegCancel c s = .ok s') :
    s'.activeTimers = s.activeTimers ∧
    s'.nextTimer = s.nextTimer ∧
    s'.deferredTasks = s.deferredTasks := by
  unfold applyRegCancel at h
  cases he : s.tasks.delete c.1 (c.2 - 1) with
  | error e => rw [he] at h; exact absurd h (by simp)
  | ok r =>
    rw [he] at h
    simp only [Except.ok.injEq] at h
    subst h
    exact ⟨rfl, rfl, rfl⟩

theorem executeTasksWithPriority_timer_frame {s s' : TaskQueue} {p : Int}
    {oc : Option Nat} {r : ExecResult}
    (h : s.executeTasksWithPriority p oc = .ok (r, s')) :
    s'.activeTimers = s.activeTimers ∧
    s'.nextTimer = s.nextTimer ∧
    s'.deferredTasks = s.deferredTasks := by
  unfold TaskQueue.executeTasksWithPriority at h
  cases oc with
  | none =>
    simp only at h
    cases hp : s.internals.peek with
    | some e =>
      rw [hp] at h; simp only [Except.ok.injEq, Prod.mk.injEq] at h
      rw [← h.2]; exact ⟨rfl, rfl, rfl⟩
    | none =>
      rw [hp] at h
      cases hg : s.tasks.getBucket (p - 1) with
      | error e => rw [hg] at h; exact absurd h (by simp)
      | ok b =>
        rw [hg] at h
        simp only [TaskQueue.cancellableExecutionStart, Except.ok.injEq, Prod.mk.injEq] at h
        rw [← h.2]; exact ⟨rfl, rfl, rfl⟩
  | some cb =>
    simp only at h
    cases hp : ({ s with subscriptions := (s.subscriptions.enqueue (.user cb)).2 } :
        TaskQueue).internals.peek with
    | some e =>
      rw [hp] at h; simp only [Except.ok.injEq, Prod.mk.injEq] at h
      rw [← h.2]; exact ⟨rfl, rfl, rfl⟩
    | none =>
      rw [hp] at h
      cases hg : ({ s with subscriptions := (s.subscriptions.enqueue (.user cb)).2 } :
          TaskQueue).tasks.getBucket (p - 1) with
      | error e => rw [hg] at h; exact absurd h (by simp)
      | ok b =>
        rw [hg] at h
        simp only [TaskQueue.cancellableExecutionStart, Except.ok.injEq, Prod.mk.injEq] at h
        rw [← h.2]; exact ⟨rfl, rfl, rfl⟩

theorem timerEffect_of_frame {s s' : TaskQueue}
    (h1 : s'.activeTimers = s.activeTimers) (h2 : s'.nextTimer = s.nextTimer)
    (h3 : s'.deferredTasks = s.deferredTasks) : TimerEffect s s' := by
  refine ⟨?_, ?_, ?_, ?_⟩
  · rw [h2]
  · rw [h3]
  · intro t ht; rw [h1] at ht; exact Or.inl ht
  · intro e he; rw [h3] at he; exact Or.inl he

/-- Every scheduler step obeys the timer-world discipline. -/
theorem step_timerEffect {s s' : TaskQueue} (hs : Step s s') : TimerEffect s s' := by
  cases hs with
  | tick => exact timerEffect_of_frame rfl rfl rfl
  | fire h hf =>
    unfold TaskQueue.fireTimer
    cases hft : s.findTimer h with
    | none => exact timerEffect_of_frame rfl rfl rfl
    | some t =>
      dsimp only
      by_cases hd : t.fireAt ≤ s.now
      · rw [if_pos hd]
        refine ⟨le_refl _, le_refl _, ?_, ?_⟩
        · intro x hx
          exact Or.inl (List.mem_of_mem_filter hx)
        · intro e he
          simp only [Bucket.delete] at he
          exact Or.inl (List.mem_of_mem_filter he)
      · rw [if_neg hd]; exact timerEffect_of_frame rfl rfl rfl
  | register l p c s2 h =>
    obtain ⟨h1, h2, h3⟩ := registerTask_timer_frame h
    exact timerEffect_of_frame h1 h2 h3
  | regCancel c s2 h =>
    obtain ⟨h1, h2, h3⟩ := applyRegCancel_timer_frame h
    exact timerEffect_of_frame h1 h2 h3
  | deferT l d =>
    refine ⟨?_, ?_, ?_, ?_⟩
    · exact Nat.le_succ _
    · exact Nat.le_succ _
    · intro t ht
      simp only [TaskQueue.deferTask, Bucket.enqueue, List.mem_append,
        List.mem_singleton] at ht
      rcases ht with ht | ht
      · exact Or.inl ht
      · subst ht; exact Or.inr (le_refl _)
    · intro e he
      simp only [TaskQueue.deferTask, Bucket.enqueue, List.mem_append,
        List.mem_singleton] at he
      rcases he with he | he
      · exact Or.inl he
      · subst he; exact Or.inr (le_refl _)
  | deferCancel c =>
    refine ⟨le_refl _, le_refl _, ?_, ?_⟩
    · intro t ht
      exact Or.inl (List.mem_of_mem_filter ht)
    · intro e he
      simp only [applyDeferCancel, Bucket.delete] at he
      exact Or.inl (List.mem_of_mem_filter he)
  | execAll oc =>
    obtain ⟨h1, h2, h3⟩ := executeAll_timer_frame s oc
    exact timerEffect_of_frame h1 h2 h3
  | execPrio p oc r s2 h =>
    obtain ⟨h1, h2, h3⟩ := executeTasksWithPriority_timer_frame h
    exact timerEffect_of_frame h1 h2 h3
  | runCancel t j =>
    unfold applyRunCancel
    by_cases hc : t ∈ s.cancelledTokens
    · rw [if_pos hc]; exact timerEffect_of_frame rfl rfl rfl
    · rw [if_neg hc]; exact timerEffect_of_frame rfl rfl rfl
  | clearPending =>
    refine ⟨le_refl _, le_refl _, ?_, ?_⟩
    · intro t ht
      exact Or.inl (clearDeferredAux_subset _ _ ht)
    · intro e he
      simp only [TaskQueue.clearPendingTasks, TaskQueue.clearDeferredTasks] at he
      exact absurd he (List.not_mem_nil e)
  | clearDeferred =>
    refine ⟨le_refl _, le_refl _, ?_, ?_⟩
    · intro t ht
      exact Or.inl (clearDeferredAux_subset _ _ ht)
    · intro e he
      simp only [TaskQueue.clearDeferredTasks] at he
      exact absurd he (List.not_mem_nil e)
  | loopTask =>
    simp only [TaskQueue.loopDequeueStep]
    cases hq : (s.tasks.dequeue).1 <;>
      simp only [hq] <;>
      exact timerEffect_of_frame rfl rfl rfl
  | subStep =>
    simp only [TaskQueue.subscriptionStep]
    cases hq : (s.subscriptions.dequeue).1 with
    | none => simp only [hq]; exact timerEffect_of_frame rfl rfl rfl
    | some e =>
      simp only [hq]
      cases e <;> simp only [TaskQueue.applySubEntry] <;>
        exact timerEffect_of_frame rfl rfl rfl

theorem timerDead_mono {s s' : TaskQueue} {h : Nat} (hs : Step s s')
    (hd : TimerDead h s) : TimerDead h s' := by
  obtain ⟨e1, e2, e3, e4⟩ := step_timerEffect hs
  refine ⟨lt_of_lt_of_le hd.1 e1, ?_⟩
  intro t ht
  rcases e3 t ht with hm | hfresh
  · exact hd.2 t hm
  · intro hc; rw [hc] at hfresh; exact absurd hd.1 (not_lt_of_le hfresh)

theorem regDead_mono {s s' : TaskQueue} {r : Nat} (hs : Step s s')
    (hd : RegDead r s) : RegDead r s' := by
  obtain ⟨e1, e2, e3, e4⟩ := step_timerEffect hs
  refine ⟨lt_of_lt_of_le hd.1 e2, ?_⟩
  intro e he
  rcases e4 e he with hm | hfresh
  · exact hd.2 e hm
  · intro hc; rw [hc] at hfresh; exact absurd hd.1 (not_lt_of_le hfresh)

theorem timerPinned_mono {s s' : TaskQueue} {t0 : HostTimer} (hs : Step s s')
    (hp : TimerPinned t0 s) : TimerPinned t0 s' := by
  obtain ⟨e1, e2, e3, e4⟩ := step_timerEffect hs
  refine ⟨lt_of_lt_of_le hp.1 e1, ?_⟩
  intro t ht hh
  rcases e3 t ht with hm | hfresh
  · exact hp.2 t hm hh
  · rw [hh] at hfresh; exact absurd hp.1 (not_lt_of_le hfresh)

theorem timerDead_steps {s s' : TaskQueue} {h : Nat} (hs : Steps s s')
    (hd : TimerDead h s) : TimerDead h s' := by
  induction hs with
  | refl => exact hd
  | tail _ hstep ih => exact timerDead_mono hstep ih

theorem regDead_steps {s s' : TaskQueue} {r : Nat} (hs : Steps s s')
    (hd : RegDead r s) : RegDead r s' := by
  induction hs with
  | refl => exact hd
  | tail _ hstep ih => exact regDead_mono hstep ih

theorem timerPinned_steps {s s' : TaskQueue} {t0 : HostTimer} (hs : Steps s s')
    (hp : TimerPinned t0 s) : TimerPinned t0 s' := by
  induction hs with
  | refl => exact hp
  | tail _ hstep ih => exact timerPinned_mono hstep ih

/-- A dead timer can never fire. -/
theorem canFire_of_timerDead {s : TaskQueue} {h : Nat} (hd : TimerDead h s) :
    s.canFire h = false := by
  unfold TaskQueue.canFire TaskQueue.findTimer
  have : s.activeTimers.find? (fun t => t.handle == h) = none := by
    rw [List.find?_eq_none]
    intro t ht
    simpa using hd.2 t ht
  rw [this]


theorem nextID_mono_steps {s s' : TaskQueue} (hs : Steps s s') :
    s.deferredTasks.nextID ≤ s'.deferredTasks.nextID := by
  induction hs with
  | refl => exact le_refl _
  | tail _ hstep ih => exact le_trans ih (step_timerEffect hstep).2.1

/-- Cancelling a deferred task kills its host timer and registry entry. -/
theorem deferCancel_kills (s : TaskQueue) (l d : Nat) :
    TimerDead (s.deferTask l d).1.1 (applyDeferCancel (s.deferTask l d).1 (s.deferTask l d).2) ∧
    RegDead (s.deferTask l d).1.2 (applyDeferCancel (s.deferTask l d).1 (s.deferTask l d).2) := by
  refine ⟨⟨?_, ?_⟩, ⟨?_, ?_⟩⟩
  · simp [TaskQueue.deferTask, applyDeferCancel]
  · intro t ht
    simp only [applyDeferCancel] at ht
    have := List.mem_filter.1 ht
    simpa using this.2
  · simp [TaskQueue.deferTask, applyDeferCancel, Bucket.delete, Bucket.enqueue]
  · intro e he
    simp only [applyDeferCancel, Bucket.delete] at he
    have := List.mem_filter.1 he
    simpa using this.2

/-- Cancelling a deferred task whose timer and registry entry are both dead
(e.g. because it already fired) does not throw and changes nothing. -/
theorem deferCancel_noop {s : TaskQueue} {c : Nat × Nat}
    (hT : ∀ t ∈ s.activeTimers, t.handle ≠ c.1)
    (hR : ∀ e ∈ s.deferredTasks.bucket, e.1 ≠ c.2) :
    applyDeferCancel c s = s := by
  unfold applyDeferCancel
  have h1 : s.activeTimers.filter (fun t => t.handle ≠ c.1) = s.activeTimers :=
    List.filter_eq_self.2 (fun a ha => by simpa using hT a ha)
  have h2 : (s.deferredTasks.delete c.2).2 = s.deferredTasks := by
    unfold Bucket.delete
    have : s.deferredTasks.bucket.filter (fun e => e.1 ≠ c.2) = s.deferredTasks.bucket :=
      List.filter_eq_self.2 (fun a ha => by simpa using hR a ha)
    cases hb : s.deferredTasks
    rw [hb] at this
    simp only at this ⊢
    rw [this]
  rw [h1, h2]

/-- Firing a pinned, due timer kills both the timer and its registry entry. -/
theorem fire_kills {s : TaskQueue} {t0 : HostTimer} (hp : TimerPinned t0 s)
    (hlow : t0.regID < s.deferredTasks.nextID)
    (hc : s.canFire t0.handle = true) :
    TimerDead t0.handle (s.fireTimer t0.handle) ∧
    RegDead t0.regID (s.fireTimer t0.handle) := by
  unfold TaskQueue.canFire at hc
  cases hft : s.findTimer t0.handle with
  | none => rw [hft] at hc; exact absurd hc (by simp)
  | some t =>
    rw [hft] at hc
    have hmem : t ∈ s.activeTimers := by
      have := List.mem_of_find?_eq_some hft
      exact this
    have hhand : t.handle = t0.handle := by
      have := List.find?_some hft
      simpa using this
    have ht0 : t = t0 := hp.2 t hmem hhand
    subst ht0
    have hdue : t.fireAt ≤ s.now := by simpa using hc
    unfold TaskQueue.fireTimer
    rw [hft]
    dsimp only
    rw [if_pos hdue]
    refine ⟨⟨hp.1, ?_⟩, ⟨hlow, ?_⟩⟩
    · intro x hx
      have := List.mem_filter.1 hx
      simpa using this.2
    · intro e he
      simp only [Bucket.delete] at he
      have := List.mem_filter.1 he
      simpa using this.2

/-- The timer created by `deferTask` is pinned in the post-state. -/
theorem deferTask_pinned {s : TaskQueue} (hwf : TimersWF s) (l d : Nat) :
    TimerPinned ⟨s.nextTimer, s.now + d, l, s.deferredTasks.nextID⟩ (s.deferTask l d).2 := by
  constructor
  · simp [TaskQueue.deferTask]
  · intro t ht hh
    simp only [TaskQueue.deferTask, List.mem_append, List.mem_singleton] at ht
    rcases ht with ht | ht
    · exact absurd hh (by simpa using Nat.ne_of_lt (hwf t ht))
    · exact ht

/-- C3: for every deferred task created by `deferTask(t, d)`: invoking the
returned cancel function cancels the host timer and removes the registry entry
together, so the task can never fire afterwards, whatever the scheduler does
next; and after the task has fired naturally (at any reachable point),
invoking the cancel function at any later point does not throw, changes
nothing (in particular does not double-invoke the task), and leaves the
deferred registry untouched. -/
theorem deferTask_cancel_safe (s : TaskQueue) (l d : Nat) (hwf : TimersWF s) :
    TimerDead (s.deferTask l d).1.1 (applyDeferCancel (s.deferTask l d).1 (s.deferTask l d).2) ∧
    RegDead (s.deferTask l d).1.2 (applyDeferCancel (s.deferTask l d).1 (s.deferTask l d).2) ∧
    (∀ s2, Steps (applyDeferCancel (s.deferTask l d).1 (s.deferTask l d).2) s2 →
        s2.canFire (s.deferTask l d).1.1 = false) ∧
    (∀ s2, Steps (s.deferTask l d).2 s2 →
        s2.canFire (s.deferTask l d).1.1 = true →
        ∀ s3, Steps (s2.fireTimer (s.deferTask l d).1.1) s3 →
          applyDeferCancel (s.deferTask l d).1 s3 = s3 ∧
          s3.canFire (s.deferTask l d).1.1 = false) := by
  obtain ⟨hdead, hreg⟩ := deferCancel_kills s l d
  refine ⟨hdead, hreg, ?_, ?_⟩
  · intro s2 hsteps
    exact canFire_of_timerDead (timerDead_steps hsteps hdead)
  · intro s2 hsteps hfire s3 hsteps3
    have hpin0 := deferTask_pinned hwf l d
    have hpin2 := timerPinned_steps hsteps hpin0
    have hlow0 : (s.deferTask l d).1.2 < (s.deferTask l d).2.deferredTasks.nextID := by
      simp [TaskQueue.deferTask, Bucket.enqueue]
    have hlow2 := lt_of_lt_of_le hlow0 (nextID_mono_steps hsteps)
    have hhandle : (s.deferTask l d).1.1 = s.nextTimer := rfl
    have hregid : (s.deferTask l d).1.2 = s.deferredTasks.nextID := rfl
    rw [hhandle] at hfire ⊢
    rw [hregid] at hlow2
    obtain ⟨hd2, hr2⟩ := fire_kills hpin2 hlow2 hfire
    have hd3 := timerDead_steps hsteps3 (by rw [hhandle] at hsteps3; exact hd2)
    have hr3 := regDead_steps hsteps3 (by rw [hhandle] at hsteps3; exact hr2)
    refine ⟨?_, canFire_of_timerDead hd3⟩
    exact deferCancel_noop hd3.2 (by rw [hregid]; exact hr3.2)

/-- C7: a deferred task that is never cancelled fires exactly when at least
`d` milliseconds have elapsed; the natural firing invokes the task exactly
once (its timer can never fire again afterwards) and removes the registry
entry, restoring the deferred-task count to its pre-call value. -/
theorem deferTask_fire_then_remove (s : TaskQueue) (l d k : Nat) (hwf : TimersWF s)
    (hrwf : ∀ e ∈ s.deferredTasks.bucket, e.1 < s.deferredTasks.nextID) :
    ((tickN k (s.deferTask l d).2).canFire (s.deferTask l d).1.1 = decide (d ≤ k)) ∧
    (d ≤ k →
      ((tickN k (s.deferTask l d).2).fireTimer (s.deferTask l d).1.1).invoked
          = s.invoked ++ [l] ∧
      ((tickN k (s.deferTask l d).2).fireTimer (s.deferTask l d).1.1).deferredTasks.length
          = s.deferredTasks.length ∧
      ∀ s2, Steps ((tickN k (s.deferTask l d).2).fireTimer (s.deferTask l d).1.1) s2 →
        s2.canFire (s.deferTask l d).1.1 = false) := by
  have hft : (tickN k (s.deferTask l d).2).findTimer (s.deferTask l d).1.1
      = some ⟨s.nextTimer, s.now + d, l, s.deferredTasks.nextID⟩ := by
    show ((s.activeTimers ++
        [(⟨s.nextTimer, s.now + d, l, s.deferredTasks.nextID⟩ : HostTimer)]).find?
      (fun t => t.handle == s.nextTimer)) = _
    rw [List.find?_append]
    have h1 : s.activeTimers.find? (fun t => t.handle == s.nextTimer) = none := by
      rw [List.find?_eq_none]
      intro t ht
      simpa using Nat.ne_of_lt (hwf t ht)
    rw [h1]
    simp
  constructor
  · unfold TaskQueue.canFire
    rw [hft]
    dsimp only
    show decide (s.now + d ≤ s.now + k) = decide (d ≤ k)
    simp
  · intro hdk
    have hfired : (tickN k (s.deferTask l d).2).fireTimer (s.deferTask l d).1.1
        = { (tickN k (s.deferTask l d).2) with
            activeTimers := (tickN k (s.deferTask l d).2).activeTimers.filter
              (fun x => x.handle ≠ (s.deferTask l d).1.1),
            invoked := (tickN k (s.deferTask l d).2).invoked ++ [l],
            deferredTasks :=
              ((tickN k (s.deferTask l d).2).deferredTasks.delete s.deferredTasks.nextID).2 } := by
      unfold TaskQueue.fireTimer
      rw [hft]
      dsimp only
      have hdue : (⟨s.nextTimer, s.now + d, l, s.deferredTasks.nextID⟩ : HostTimer).fireAt
          ≤ (tickN k (s.deferTask l d).2).now := Nat.add_le_add_left hdk s.now
      rw [if_pos hdue]
    rw [hfired]
    have hbucket : (((tickN k (s.deferTask l d).2).deferredTasks.delete
        s.deferredTasks.nextID).2).bucket = s.deferredTasks.bucket := by
      show ((s.deferredTasks.bucket ++ [(s.deferredTasks.nextID, s.nextTimer)]).filter
        (fun e => e.1 ≠ s.deferredTasks.nextID)) = s.deferredTasks.bucket
      rw [List.filter_append]
      have h2 : s.deferredTasks.bucket.filter (fun e => e.1 ≠ s.deferredTasks.nextID)
          = s.deferredTasks.bucket :=
        List.filter_eq_self.2 (fun a ha => by simpa using Nat.ne_of_lt (hrwf a ha))
      rw [h2]
      simp
    refine ⟨rfl, ?_, ?_⟩
    · show (((tickN k (s.deferTask l d).2).deferredTasks.delete
        s.deferredTasks.nextID).2).bucket.length = s.deferredTasks.bucket.length
      rw [hbucket]
    · intro s2 hsteps
      refine canFire_of_timerDead (timerDead_steps hsteps ?_)
      constructor
      · exact Nat.lt_succ_self _
      · intro t ht
        have := List.mem_filter.1 ht
        simpa using this.2

/-! ## Indexing helpers -/

theorem getAtInt_bounds {l : List α} {i : Int} {a : α} (h : getAtInt l i = some a) :
    0 ≤ i ∧ i.toNat < l.length := by
  unfold getAtInt at h
  by_cases hneg : i < 0
  · rw [if_pos hneg] at h; exact absurd h (by simp)
  · rw [if_neg hneg] at h
    refine ⟨le_of_not_lt hneg, ?_⟩
    rw [List.get?_eq_getElem?] at h
    exact (List.getElem?_eq_some_iff.1 h).1

theorem getAtInt_setAtInt {l : List α} {i : Int} (a : α) (h0 : 0 ≤ i)
    (hl : i.toNat < l.length) : getAtInt (setAtInt l i a) i = some a := by
  unfold getAtInt setAtInt
  rw [if_neg (not_lt_of_le h0), if_neg (not_lt_of_le h0)]
  rw [List.get?_eq_getElem?]
  rw [List.getElem?_set_self (by simpa using hl)]

theorem setAtInt_setAtInt (l : List α) (i : Int) (a b : α) :
    setAtInt (setAtInt l i a) i b = setAtInt l i b := by
  unfold setAtInt
  by_cases hneg : i < 0
  · rw [if_pos hneg, if_pos hneg, if_pos hneg]
  · rw [if_neg hneg, if_neg hneg, if_neg hneg, List.set_set]

theorem length_setAtInt (l : List α) (i : Int) (a : α) :
    (setAtInt l i a).length = l.length := by
  unfold setAtInt
  by_cases hneg : i < 0
  · rw [if_pos hneg]
  · rw [if_neg hneg, List.length_set]

/-! ## C10: idempotence of all handed-out cancel functions -/

theorem filter_idem (p : α → Bool) (l : List α) :
    (l.filter p).filter p = l.filter p :=
  List.filter_eq_self.2 (fun _ ha => (List.mem_filter.1 ha).2)

theorem Bucket.delete_twice (b : Bucket T) (i : Nat) :
    ((b.delete i).2.delete i).2 = (b.delete i).2 := by
  simp only [Bucket.delete]
  rw [filter_idem]

/-- Deleting the same ID at the same level twice: the second call succeeds
and returns the state of the first unchanged. -/
theorem PriorityQueue.delete_ok_again {T : Type} {q : PriorityQueue T} {i : Nat} {p : Int}
    {r : Bool × PriorityQueue T} (h : q.delete i p = .ok r) :
    ∃ b2, r.2.delete i p = .ok (b2, r.2) := by
  unfold PriorityQueue.delete at h ⊢
  cases hg : q.guardThrows p with
  | true => rw [hg] at h; exact absurd h (by simp)
  | false =>
    rw [hg] at h
    simp only [Bool.false_eq_true, if_false] at h
    cases hget : getAtInt q.buckets p with
    | none => rw [hget] at h; exact absurd h (by simp)
    | some b =>
      rw [hget] at h
      dsimp only at h
      simp only [Except.ok.injEq] at h
      obtain ⟨h0, hlen⟩ := getAtInt_bounds hget
      have hg2 : r.2.guardThrows p = false := by rw [← h]; exact hg
      have hget2 : getAtInt r.2.buckets p = some ((b.delete i).2) := by
        rw [← h]
        exact getAtInt_setAtInt _ h0 hlen
      rw [hg2]
      simp only [Bool.false_eq_true, if_false]
      rw [hget2]
      dsimp only
      refine ⟨((b.delete i).2.delete i).1, ?_⟩
      simp only [Except.ok.injEq, Prod.mk.injEq]
      refine ⟨trivial, ?_⟩
      rw [← h]
      dsimp only
      rw [Bucket.delete_twice, setAtInt_setAtInt]

/-- C10: every cancel function the scheduler hands out — from `registerTask`,
from `deferTask`, and from `executeAll` — is idempotent: a second (or any
further) invocation never throws and leaves the scheduler exactly in the
state reached after the first invocation. -/
theorem cancel_functions_idempotent :
    (∀ (s : TaskQueue) (c : Nat × Int) (s' : TaskQueue),
        applyRegCancel c s = .ok s' → applyRegCancel c s' = .ok s') ∧
    (∀ (s : TaskQueue) (c : Nat × Nat),
        applyDeferCancel c (applyDeferCancel c s) = applyDeferCancel c s) ∧
    (∀ (s : TaskQueue) (t j : Nat),
        applyRunCancel t j (applyRunCancel t j s) = applyRunCancel t j s) := by
  refine ⟨?_, ?_, ?_⟩
  · intro s c s' h
    unfold applyRegCancel at h ⊢
    cases hd : s.tasks.delete c.1 (c.2 - 1) with
    | error e => rw [hd] at h; exact absurd h (by simp)
    | ok r =>
      rw [hd] at h
      simp only [Except.ok.injEq] at h
      obtain ⟨b2, hidem⟩ := PriorityQueue.delete_ok_again hd
      have hst : s'.tasks = r.2 := by rw [← h]
      rw [hst, hidem]
      dsimp only
      simp only [Except.ok.injEq]
      rw [← h]
  · intro s c
    unfold applyDeferCancel
    simp only [Bucket.delete]
    rw [filter_idem, filter_idem]
  · intro s t j
    unfold applyRunCancel
    by_cases hc : t ∈ s.cancelledTokens
    · rw [if_pos hc]
      dsimp only
      rw [if_pos hc]
      simp only [Bucket.delete]
      rw [filter_idem]
    · rw [if_neg hc]
      dsimp only
      rw [if_pos (by exact List.mem_cons_self t s.cancelledTokens)]
      simp only [Bucket.delete]
      rw [filter_idem]

/-! ## C8: what `clearPendingTasks` actually clears -/

theorem PriorityQueue.length_clear {T : Type} (q : PriorityQueue T) :
    q.clear.length = 0 := by
  unfold PriorityQueue.clear PriorityQueue.length
  dsimp only
  induction q.buckets with
  | nil => rfl
  | cons b bs ih => simpa [Bucket.clear, Bucket.length] using ih

/-- Draining the deferred registry cancels every host timer named in it. -/
theorem clearDeferredAux_removes {e : Nat × Nat} :
    ∀ (l : List (Nat × Nat)) (timers : List HostTimer), e ∈ l →
      ∀ t ∈ TaskQueue.clearDeferredAux timers l, t.handle ≠ e.2 := by
  intro l
  induction l with
  | nil => intro timers he; exact absurd he (List.not_mem_nil e)
  | cons x rest ih =>
    intro timers he t ht
    rcases List.mem_cons.1 he with he | he
    · subst he
      have hsub := clearDeferredAux_subset rest _ ht
      have := List.mem_filter.1 hsub
      simpa using this.2
    · exact ih _ he t ht

/-- C8 (amended): `clearPendingTasks` resets the Priority Queue and the
deferred-timer registry — both counts drop to 0, every cleared host timer is
cancelled and can never fire, nothing is invoked — and leaves the
configuration unchanged; but contrary to the claim it does NOT touch the
completion-subscriptions registry or the active-run registry. -/
theorem clearPendingTasks_spec (s : TaskQueue)
    (hreg : ∀ e ∈ s.deferredTasks.bucket, e.2 < s.nextTimer) :
    s.clearPendingTasks.tasks.length = 0 ∧
    s.clearPendingTasks.deferredTasks.length = 0 ∧
    s.clearPendingTasks.invoked = s.invoked ∧
    s.clearPendingTasks.autoRun = s.autoRun ∧
    s.clearPendingTasks.taskSeparation = s.taskSeparation ∧
    s.clearPendingTasks.mainThreadYieldTime = s.mainThreadYieldTime ∧
    s.clearPendingTasks.tasks.max = s.tasks.max ∧
    s.clearPendingTasks.subscriptions = s.subscriptions ∧
    s.clearPendingTasks.internals = s.internals ∧
    (∀ e ∈ s.deferredTasks.bucket, ∀ s2, Steps s.clearPendingTasks s2 →
        s2.canFire e.2 = false) := by
  refine ⟨?_, rfl, rfl, rfl, rfl, rfl, rfl, rfl, rfl, ?_⟩
  · exact PriorityQueue.length_clear s.tasks
  · intro e he s2 hsteps
    refine canFire_of_timerDead (timerDead_steps hsteps ?_)
    refine ⟨hreg e he, ?_⟩
    intro t ht
    exact clearDeferredAux_removes s.deferredTasks.bucket s.activeTimers he t ht

/-- C8 counterexample: the claim also asserts the subscriptions registry and
the active-run (internals) registry are reset; after `executeAll` has filled
both, `clearPendingTasks` leaves them untouched. -/
theorem clearPendingTasks_counterexample :
    ((TaskQueue.new 1 false 0 5).executeAll (some 42)).2.clearPendingTasks.subscriptions.length
        = 2 ∧
    ((TaskQueue.new 1 false 0 5).executeAll (some 42)).2.clearPendingTasks.internals.length
        = 1 := by
  constructor <;> rfl

/-! ## C5: the range guard of `registerTask` -/


theorem sum_map_set (f : α → Nat) :
    ∀ (l : List α) (i : Nat) (b a : α), l[i]? = some b →
      ((l.set i a).map f).sum + f b = (l.map f).sum + f a := by
  intro l
  induction l with
  | nil => intro i b a h; simp at h
  | cons x xs ih =>
    intro i b a h
    cases i with
    | zero =>
      simp only [List.getElem?_cons_zero, Option.some.injEq] at h
      subst h
      simp only [List.set_cons_zero, List.map_cons, List.sum_cons]
      omega
    | succ n =>
      simp only [List.getElem?_cons_succ] at h
      have := ih n b a h
      simp only [List.set_cons_succ, List.map_cons, List.sum_cons]
      omega

theorem PriorityQueue.enqueue_spec {T : Type} {q : PriorityQueue T} (item : T) {p : Int}
    {b : Bucket T} (hg : q.guardThrows p = false) (hget : getAtInt q.buckets p = some b) :
    q.enqueue item p
      = .ok (b.nextID, { q with buckets := setAtInt q.buckets p (b.enqueue item).2 }) ∧
    levelValues { q with buckets := setAtInt q.buckets p (b.enqueue item).2 } p.toNat
      = levelValues q p.toNat ++ [item] ∧
    (∀ ℓ, ℓ ≠ p.toNat →
      levelValues { q with buckets := setAtInt q.buckets p (b.enqueue item).2 } ℓ
        = levelValues q ℓ) ∧
    ({ q with buckets := setAtInt q.buckets p (b.enqueue item).2 } : PriorityQueue T).length
      = q.length + 1 := by
  obtain ⟨h0, hlen⟩ := getAtInt_bounds hget
  have hgetN : q.buckets[p.toNat]? = some b := by
    unfold getAtInt at hget
    rw [if_neg (not_lt_of_le h0)] at hget
    rw [← List.get?_eq_getElem?]
    exact hget
  have hset : setAtInt q.buckets p (b.enqueue item).2 = q.buckets.set p.toNat (b.enqueue item).2 := by
    unfold setAtInt
    rw [if_neg (not_lt_of_le h0)]
  refine ⟨?_, ?_, ?_, ?_⟩
  · unfold PriorityQueue.enqueue
    rw [hg]
    simp only [Bool.false_eq_true, if_false]
    rw [hget]
    rfl
  · unfold levelValues
    rw [hset, List.getElem?_set_self (by simpa using hlen), hgetN]
    simp [Bucket.enqueue, Bucket.values]
  · intro ℓ hne
    unfold levelValues
    rw [hset, List.getElem?_set_ne (fun hc => hne hc.symm)]
  · unfold PriorityQueue.length
    dsimp only
    rw [hset]
    have := sum_map_set Bucket.length q.buckets p.toNat b (b.enqueue item).2 hgetN
    have hbl : Bucket.length (b.enqueue item).2 = b.length + 1 := by
      simp [Bucket.enqueue, Bucket.length]
    omega

theorem executeAll_tasks_frame (s : TaskQueue) (oc : Option Nat) :
    (s.executeAll oc).2.tasks = s.tasks := by
  unfold TaskQueue.executeAll
  cases oc with
  | none => cases hp : s.internals.peek <;> simp [hp, cancellableExecutionStart]
  | some cb =>
    cases hp : ({ s with subscriptions := (s.subscriptions.enqueue (.user cb)).2 } :
        TaskQueue).internals.peek <;> simp [hp, cancellableExecutionStart]

/-- C5: `registerTask(t, p)` on a scheduler with `N` priority levels raises
OutOfRange exactly when the converted level `p - 1` exceeds the max index
`N - 1` (nothing is validated from below: a level at or under the max never
raises OutOfRange), the failure produces no state so the queue is untouched;
for `1 ≤ p ≤ N` the call succeeds and appends the task at level `p - 1`,
leaving every other level unchanged. -/
theorem registerTask_range_guard (s : TaskQueue) (l : Nat) (p : Int)
    (hWF : s.tasks.max = (s.tasks.buckets.length : Int) - 1) :
    (p - 1 > s.tasks.max → s.registerTask l p = .error .outOfRange) ∧
    (p - 1 ≤ s.tasks.max → s.registerTask l p ≠ .error .outOfRange) ∧
    (1 ≤ p → p ≤ (s.tasks.buckets.length : Int) → ∃ c s',
      s.registerTask l p = .ok (c, s') ∧
      levelValues s'.tasks (p - 1).toNat = levelValues s.tasks (p - 1).toNat ++ [l] ∧
      (∀ ℓ, ℓ ≠ (p - 1).toNat → levelValues s'.tasks ℓ = levelValues s.tasks ℓ) ∧
      s'.tasks.length = s.tasks.length + 1) := by
  refine ⟨?_, ?_, ?_⟩
  · intro hgt
    unfold TaskQueue.registerTask PriorityQueue.enqueue
    have hg : s.tasks.guardThrows (p - 1) = true := by
      unfold PriorityQueue.guardThrows
      simpa using hgt
    rw [hg]
    simp
  · intro hle
    unfold TaskQueue.registerTask PriorityQueue.enqueue
    have hg : s.tasks.guardThrows (p - 1) = false := by
      unfold PriorityQueue.guardThrows
      simpa using not_lt_of_le hle
    rw [hg]
    simp only [Bool.false_eq_true, if_false]
    cases hget : getAtInt s.tasks.buckets (p - 1) with
    | none => simp
    | some b => dsimp only; simp
  · intro hp1 hpN
    have hg : s.tasks.guardThrows (p - 1) = false := by
      unfold PriorityQueue.guardThrows
      rw [hWF]
      simp only [decide_eq_false_iff_not]
      omega
    have h0 : (0 : Int) ≤ p - 1 := by omega
    have hlt : (p - 1).toNat < s.tasks.buckets.length := by omega
    have hget : ∃ b, getAtInt s.tasks.buckets (p - 1) = some b := by
      unfold getAtInt
      rw [if_neg (not_lt_of_le h0), List.get?_eq_getElem?]
      exact ⟨_, List.getElem?_eq_getElem hlt⟩
    obtain ⟨b, hget⟩ := hget
    obtain ⟨henq, hlev, hother, hlen⟩ := PriorityQueue.enqueue_spec l hg hget
    unfold TaskQueue.registerTask
    rw [henq]
    dsimp only
    by_cases hauto : (({ s with tasks := { s.tasks with
        buckets := setAtInt s.tasks.buckets (p - 1) (b.enqueue l).2 } } : TaskQueue).autoRun
        ∧ ({ s with tasks := { s.tasks with
        buckets := setAtInt s.tasks.buckets (p - 1) (b.enqueue l).2 } } : TaskQueue).internals.peek
          = none)
    · rw [if_pos hauto]
      refine ⟨_, _, rfl, ?_, ?_, ?_⟩
      · rw [executeAll_tasks_frame]
        exact hlev
      · intro ℓ hne
        rw [executeAll_tasks_frame]
        exact hother ℓ hne
      · rw [executeAll_tasks_frame]
        exact hlen
    · rw [if_neg hauto]
      exact ⟨_, _, rfl, hlev, hother, hlen⟩

/-! ## C9: level-scoped execution leaves no active-run marker -/

/-- C9: when no full run is active, `executeTasksWithPriority` starts its
level-scoped run without recording anything in the `internals` registry:
afterwards `internals` is still empty and `getCancelFN()` returns nothing, and
a subsequent `executeAll` is not suppressed (it starts a fresh run). -/
theorem executeTasksWithPriority_no_marker (s : TaskQueue) (p : Int) (oc : Option Nat)
    (hIdle : s.internals.bucket = [])
    (hg : s.tasks.guardThrows (p - 1) = false)
    (hb : ∃ b, getAtInt s.tasks.buckets (p - 1) = some b) :
    ∃ s', s.executeTasksWithPriority p oc = .ok (.scoped s.nextToken, s') ∧
      s'.internals = s.internals ∧
      s'.getCancelFN = none ∧
      s'.runsStarted = s.runsStarted + 1 ∧
      (∃ j, (s'.executeAll none).1 = .newRun s'.nextToken j ∧
        (s'.executeAll none).2.runsStarted = s'.runsStarted + 1) := by
  obtain ⟨b, hget⟩ := hb
  have hpeek : s.internals.peek = none := by
    unfold Bucket.peek
    rw [hIdle]
  unfold TaskQueue.executeTasksWithPriority
  cases oc with
  | none =>
    dsimp only
    rw [hpeek]
    unfold PriorityQueue.getBucket
    rw [hg]
    simp only [Bool.false_eq_true, if_false]
    rw [hget]
    dsimp only [cancellableExecutionStart]
    refine ⟨_, rfl, rfl, ?_, rfl, ?_⟩
    · unfold TaskQueue.getCancelFN
      dsimp only
      rw [hpeek]
    · unfold TaskQueue.executeAll
      dsimp only
      rw [hpeek]
      exact ⟨_, rfl, rfl⟩
  | some cb =>
    dsimp only
    rw [hpeek]
    unfold PriorityQueue.getBucket
    rw [hg]
    simp only [Bool.false_eq_true, if_false]
    rw [hget]
    dsimp only [cancellableExecutionStart]
    refine ⟨_, rfl, rfl, ?_, rfl, ?_⟩
    · unfold TaskQueue.getCancelFN
      dsimp only
      rw [hpeek]
    · unfold TaskQueue.executeAll
      dsimp only
      rw [hpeek]
      exact ⟨_, rfl, rfl⟩

/-! ## Drain order of the priority queue -/


theorem allValues_eq_flatValues {T : Type} (q : PriorityQueue T) :
    q.allValues = flatValues q.buckets := rfl

theorem length_flatValues {T : Type} (bs : List (Bucket T)) :
    (flatValues bs).length = (bs.map Bucket.length).sum := by
  induction bs with
  | nil => rfl
  | cons b rest ih =>
    unfold flatValues at ih ⊢
    simp only [List.map_cons, List.flatten_cons, List.length_append, List.sum_cons, ih]
    simp [Bucket.values, Bucket.length]

theorem isEmpty_iff_flatValues {T : Type} (q : PriorityQueue T) :
    q.isEmpty = true ↔ flatValues q.buckets = [] := by
  unfold PriorityQueue.isEmpty flatValues
  induction q.buckets with
  | nil => simp
  | cons b rest ih =>
    simp only [List.all_cons, Bool.and_eq_true, List.map_cons, List.flatten_cons,
      List.append_eq_nil] at ih ⊢
    constructor
    · rintro ⟨h1, h2⟩
      refine ⟨?_, ih.1 h2⟩
      have : b.bucket.length = 0 := by simpa [Bucket.length] using h1
      simp [Bucket.values, List.length_eq_zero.1 this]
    · rintro ⟨h1, h2⟩
      refine ⟨?_, ih.2 h2⟩
      have : b.bucket = [] := by
        have := congrArg List.length h1
        simpa [Bucket.values] using List.length_eq_zero.1 (by simpa [Bucket.values] using this)
      simp [Bucket.length, this]

theorem dequeueBuckets_cons {T : Type} (b : Bucket T) (rest : List (Bucket T)) :
    PriorityQueue.dequeueBuckets (b :: rest)
      = if b.length ≠ 0 then ((b.dequeue).1, (b.dequeue).2 :: rest)
        else ((PriorityQueue.dequeueBuckets rest).1,
              b :: (PriorityQueue.dequeueBuckets rest).2) := by
  by_cases hb : b.length ≠ 0
  · rw [if_pos hb]
    unfold PriorityQueue.dequeueBuckets
    rw [if_pos hb]
  · rw [if_neg hb]
    conv_lhs => unfold PriorityQueue.dequeueBuckets
    rw [if_neg hb]

/-- One `dequeue` on a bucket list: either everything is empty and nothing
changes, or the head of the level-major value sequence is removed. -/
theorem dequeueBuckets_cases {T : Type} (bs : List (Bucket T)) :
    ((PriorityQueue.dequeueBuckets bs).1 = none ∧ (PriorityQueue.dequeueBuckets bs).2 = bs ∧
      flatValues bs = []) ∨
    (∃ v, (PriorityQueue.dequeueBuckets bs).1 = some v ∧
      flatValues bs = v :: flatValues (PriorityQueue.dequeueBuckets bs).2 ∧
      ((PriorityQueue.dequeueBuckets bs).2.map Bucket.length).sum + 1
        = (bs.map Bucket.length).sum) := by
  induction bs with
  | nil => left; exact ⟨rfl, rfl, rfl⟩
  | cons b rest ih =>
    by_cases hb : b.length ≠ 0
    · right
      cases hbb : b.bucket with
      | nil => exact absurd (by simp [Bucket.length, hbb]) hb
      | cons e tail =>
        have hdq : PriorityQueue.dequeueBuckets (b :: rest)
            = (some e.2, (⟨tail, b.nextID⟩ : Bucket T) :: rest) := by
          rw [dequeueBuckets_cons, if_pos hb]
          unfold Bucket.dequeue
          rw [hbb]
        refine ⟨e.2, by rw [hdq], ?_, ?_⟩
        · rw [hdq]
          unfold flatValues
          simp [Bucket.values, hbb]
        · rw [hdq]
          simp only [List.map_cons, List.sum_cons]
          simp [Bucket.length, hbb]
          omega
    · push_neg at hb
      have hbb : b.bucket = [] := List.length_eq_zero.1 hb
      have hdq : PriorityQueue.dequeueBuckets (b :: rest)
          = ((PriorityQueue.dequeueBuckets rest).1,
             b :: (PriorityQueue.dequeueBuckets rest).2) := by
        rw [dequeueBuckets_cons, if_neg (by simpa [Bucket.length] using hb)]
      rcases ih with ⟨h1, h2, h3⟩ | ⟨v, h1, h2, h3⟩
      · left
        rw [hdq, h1, h2]
        refine ⟨rfl, rfl, ?_⟩
        unfold flatValues
        simp only [List.map_cons, List.flatten_cons]
        unfold flatValues at h3
        rw [h3]
        simp [Bucket.values, hbb]
      · right
        refine ⟨v, by rw [hdq, h1], ?_, ?_⟩
        · rw [hdq]
          unfold flatValues
          simp only [List.map_cons, List.flatten_cons]
          unfold flatValues at h2
          rw [h2]
          simp [Bucket.values, hbb]
        · rw [hdq]
          simp only [List.map_cons, List.sum_cons]
          omega


theorem sameExceptRun_refl (s : TaskQueue) : SameExceptRun s s :=
  ⟨rfl, rfl, rfl, rfl, rfl, rfl, rfl, rfl, rfl, rfl, rfl, rfl, rfl⟩

theorem sameExceptRun_trans {a b c : TaskQueue} (h1 : SameExceptRun a b)
    (h2 : SameExceptRun b c) : SameExceptRun a c := by
  obtain ⟨x1, x2, x3, x4, x5, x6, x7, x8, x9, x10, x11, x12, x13⟩ := h1
  obtain ⟨y1, y2, y3, y4, y5, y6, y7, y8, y9, y10, y11, y12, y13⟩ := h2
  exact ⟨y1.trans x1, y2.trans x2, y3.trans x3, y4.trans x4, y5.trans x5,
    y6.trans x6, y7.trans x7, y8.trans x8, y9.trans x9, y10.trans x10,
    y11.trans x11, y12.trans x12, y13.trans x13⟩

theorem dequeue_fst {T : Type} (q : PriorityQueue T) :
    (q.dequeue).1 = (PriorityQueue.dequeueBuckets q.buckets).1 := rfl

theorem dequeue_snd {T : Type} (q : PriorityQueue T) :
    (q.dequeue).2 = { q with buckets := (PriorityQueue.dequeueBuckets q.buckets).2 } := rfl

theorem mainLoop_succ (env : RunEnv) (fuel i : Nat) (s : TaskQueue) :
    mainLoop env (fuel + 1) i s =
      if s.tasks.isEmpty then s
      else if env.cancelledAt i then s
      else if env.inputPendingAt i then mainLoop env fuel (i + 1) s
      else mainLoop env fuel (i + 1)
        (match (s.tasks.dequeue).1 with
         | some t => { s with tasks := (s.tasks.dequeue).2, invoked := s.invoked ++ [t] }
         | none => { s with tasks := (s.tasks.dequeue).2 }) := rfl

theorem tasks_length_of_zero_flat {T : Type} {q : PriorityQueue T}
    (h : q.length = 0) : flatValues q.buckets = [] := by
  rw [← List.length_eq_zero, length_flatValues]
  exact h

theorem isEmpty_false_of_length {q : PriorityQueue Nat} {m : Nat}
    (h : q.length = m + 1) : q.isEmpty = false := by
  by_contra hc
  have he : q.isEmpty = true := by
    cases hq : q.isEmpty
    · exact absurd hq hc
    · rfl
  have := (isEmpty_iff_flatValues q).1 he
  have hlen := length_flatValues q.buckets
  rw [this] at hlen
  unfold PriorityQueue.length at h
  simp at hlen
  omega

/-- The loop over the full priority queue, run while the cancellation and
contention oracles stay quiet for `m` dequeues and then stop it (or the
queue runs out at exactly `m`): the first `m` values of the level-major
sequence are invoked in order; everything still queued stays queued,
untouched. -/
theorem mainLoop_drain (env : RunEnv) :
    ∀ (m i fuel : Nat) (s : TaskQueue),
      m ≤ fuel → m ≤ s.tasks.length →
      (∀ j, j < m → env.cancelledAt (i + j) = false ∧ env.inputPendingAt (i + j) = false) →
      (env.cancelledAt (i + m) = true ∨ s.tasks.length = m) →
      (mainLoop env fuel i s).invoked = s.invoked ++ (flatValues s.tasks.buckets).take m ∧
      flatValues (mainLoop env fuel i s).tasks.buckets = (flatValues s.tasks.buckets).drop m ∧
      (mainLoop env fuel i s).tasks.length = s.tasks.length - m ∧
      SameExceptRun s (mainLoop env fuel i s) := by
  intro m
  induction m with
  | zero =>
    intro i fuel s hf hl hrange hstop
    have hML : mainLoop env fuel i s = s := by
      cases fuel with
      | zero => rfl
      | succ fuel' =>
        rw [mainLoop_succ]
        by_cases he : s.tasks.isEmpty = true
        · rw [if_pos he]
        · rw [if_neg he]
          rcases hstop with hc | hc
          · have hc' : env.cancelledAt i = true := by simpa using hc
            rw [if_pos hc']
          · exfalso
            have : flatValues s.tasks.buckets = [] := tasks_length_of_zero_flat hc
            exact he ((isEmpty_iff_flatValues s.tasks).2 this)
    rw [hML]
    refine ⟨by simp, by simp, by simp, sameExceptRun_refl s⟩
  | succ m ih =>
    intro i fuel s hf hl hrange hstop
    cases fuel with
    | zero => omega
    | succ fuel' =>
      obtain ⟨hlen1, hrest⟩ : ∃ rest, s.tasks.length = rest + 1 := by
        refine ⟨s.tasks.length - 1, ?_⟩
        omega
      have hne : s.tasks.isEmpty = false := isEmpty_false_of_length hrest
      have hc0 : env.cancelledAt i = false := by
        simpa using (hrange 0 (Nat.succ_pos m)).1
      have hp0 : env.inputPendingAt i = false := by
        simpa using (hrange 0 (Nat.succ_pos m)).2
      rw [mainLoop_succ]
      rw [if_neg (by simp [hne]), if_neg (by simp [hc0]), if_neg (by simp [hp0])]
      rcases dequeueBuckets_cases s.tasks.buckets with ⟨h1, h2, h3⟩ | ⟨v, h1, h2, h3⟩
      · exfalso
        have hlen := length_flatValues s.tasks.buckets
        rw [h3] at hlen
        unfold PriorityQueue.length at hrest
        simp at hlen
        omega
      · rw [dequeue_fst, h1]
        dsimp only
        set s' : TaskQueue :=
          { s with tasks := (s.tasks.dequeue).2, invoked := s.invoked ++ [v] } with hs'
        have hlen' : s'.tasks.length = s.tasks.length - 1 := by
          rw [hs']
          show ((s.tasks.dequeue).2).length = s.tasks.length - 1
          rw [dequeue_snd]
          unfold PriorityQueue.length
          dsimp only
          unfold PriorityQueue.length at hrest
          omega
        have hflat' : flatValues s'.tasks.buckets
            = flatValues (PriorityQueue.dequeueBuckets s.tasks.buckets).2 := by
          rw [hs']
          show flatValues ((s.tasks.dequeue).2).buckets = _
          rw [dequeue_snd]
        obtain ⟨ih1, ih2, ih3, ih4⟩ := ih (i + 1) fuel' s'
          (by omega)
          (by omega)
          (by
            intro j hj
            have := hrange (j + 1) (by omega)
            constructor
            · have heq : i + (j + 1) = i + 1 + j := by omega
              rw [heq] at this
              exact this.1
            · have heq : i + (j + 1) = i + 1 + j := by omega
              rw [heq] at this
              exact this.2)
          (by
            rcases hstop with hc | hc
            · left
              have heq : i + (m + 1) = i + 1 + m := by omega
              rw [heq] at hc
              exact hc
            · right
              omega)
        refine ⟨?_, ?_, ?_, ?_⟩
        · rw [ih1, hs']
          dsimp only
          rw [hflat'.symm.symm]
          rw [h2]
          simp [hflat']
        · rw [ih2, hflat', h2, List.drop_succ_cons]
        · rw [ih3]
          omega
        · refine sameExceptRun_trans ?_ ih4
          rw [hs']
          refine ⟨rfl, rfl, rfl, rfl, rfl, rfl, rfl, rfl, rfl, rfl, rfl, rfl, ?_⟩
          show ((s.tasks.dequeue).2).max = s.tasks.max
          rw [dequeue_snd]

/-! ## The subscriptions drain -/



theorem subsLoop_succ (p : Nat → Bool) (fuel i : Nat) (s : TaskQueue) :
    subsLoop p (fuel + 1) i s =
      if s.subscriptions.isEmpty then s
      else if p i then subsLoop p fuel (i + 1) s
      else subsLoop p fuel (i + 1)
        (match (s.subscriptions.dequeue).1 with
         | some e => applySubEntry { s with subscriptions := (s.subscriptions.dequeue).2 } e
         | none => { s with subscriptions := (s.subscriptions.dequeue).2 }) := rfl

/-- The secondary run over `subscriptions` (never cancelled, no contention)
invokes every user completion callback exactly once, in order, runs every
`removeJob` closure against `internals`, and empties the registry. -/
theorem subsLoop_drain :
    ∀ (fuel i : Nat) (s : TaskQueue), s.subscriptions.length ≤ fuel →
      (subsLoop (fun _ => false) fuel i s).invoked
          = s.invoked ++ subUserLabels s.subscriptions.bucket ∧
      (subsLoop (fun _ => false) fuel i s).subscriptions.bucket = [] ∧
      (subsLoop (fun _ => false) fuel i s).internals
          = deleteJobs s.internals s.subscriptions.bucket ∧
      (subsLoop (fun _ => false) fuel i s).tasks = s.tasks := by
  intro fuel
  induction fuel with
  | zero =>
    intro i s hf
    have hb : s.subscriptions.bucket = [] := by
      have : s.subscriptions.bucket.length = 0 := by
        have := hf
        unfold Bucket.length at this
        omega
      exact List.length_eq_zero.1 this
    refine ⟨?_, ?_, ?_, ?_⟩ <;> simp [subsLoop, hb, subUserLabels, deleteJobs]
  | succ fuel ih =>
    intro i s hf
    cases hb : s.subscriptions.bucket with
    | nil =>
      have hE : s.subscriptions.isEmpty = true := by
        unfold Bucket.isEmpty
        rw [hb]
        rfl
      rw [subsLoop_succ, if_pos hE]
      exact ⟨by simp [hb, subUserLabels], hb, by simp [hb, deleteJobs], rfl⟩
    | cons e rest =>
      obtain ⟨eid, ese⟩ := e
      have hE : s.subscriptions.isEmpty = false := by
        unfold Bucket.isEmpty
        rw [hb]
        rfl
      have hdq : s.subscriptions.dequeue
          = (some ese, (⟨rest, s.subscriptions.nextID⟩ : Bucket SubEntry)) := by
        unfold Bucket.dequeue
        rw [hb]
      rw [subsLoop_succ, if_neg (by simp [hE]), if_neg (by simp), hdq]
      dsimp only
      have hlen : rest.length ≤ fuel := by
        unfold Bucket.length at hf
        rw [hb] at hf
        simpa using hf
      cases ese with
      | user l =>
        dsimp only [applySubEntry]
        obtain ⟨ih1, ih2, ih3, ih4⟩ := ih (i + 1)
          { s with subscriptions := ⟨rest, s.subscriptions.nextID⟩,
                   invoked := s.invoked ++ [l] } hlen
        refine ⟨?_, ih2, ih3, ih4⟩
        rw [ih1]
        simp [subUserLabels]
      | removeJob j =>
        dsimp only [applySubEntry]
        obtain ⟨ih1, ih2, ih3, ih4⟩ := ih (i + 1)
          { s with subscriptions := ⟨rest, s.subscriptions.nextID⟩,
                   internals := (s.internals.delete j).2 } hlen
        refine ⟨?_, ih2, ?_, ih4⟩
        · rw [ih1]
          simp [subUserLabels]
        · rw [ih3]
          simp [deleteJobs]

/-! ## Synchronous behaviour of `executeAll` -/

/-- `executeAll()` on an idle scheduler: a run starts, its cancel function is
recorded in `internals`, and the `removeJob` subscription is enqueued. -/
theorem executeAll_start_none {s : TaskQueue} (hIdle : s.internals.bucket = []) :
    s.executeAll none = (.newRun s.nextToken s.internals.nextID,
      { s with
        subscriptions := (s.subscriptions.enqueue (.removeJob s.internals.nextID)).2,
        internals := (s.internals.enqueue s.nextToken).2,
        nextToken := s.nextToken + 1,
        runsStarted := s.runsStarted + 1 }) := by
  have hpeek : s.internals.peek = none := by
    unfold Bucket.peek
    rw [hIdle]
  unfold TaskQueue.executeAll
  dsimp only
  rw [hpeek]
  rfl

/-- `executeAll(onComplete)` on an idle scheduler. -/
theorem executeAll_start_some {s : TaskQueue} (cb : Nat) (hIdle : s.internals.bucket = []) :
    s.executeAll (some cb) = (.newRun s.nextToken s.internals.nextID,
      { s with
        subscriptions := (((s.subscriptions.enqueue (.user cb)).2).enqueue
          (.removeJob s.internals.nextID)).2,
        internals := (s.internals.enqueue s.nextToken).2,
        nextToken := s.nextToken + 1,
        runsStarted := s.runsStarted + 1 }) := by
  have hpeek : s.internals.peek = none := by
    unfold Bucket.peek
    rw [hIdle]
  unfold TaskQueue.executeAll
  dsimp only
  rw [hpeek]
  rfl

/-- `executeAll(onComplete)` while a run is active: the stored cancel function
is returned, the callback is still enqueued, and nothing else changes — in
particular no second run starts. -/
theorem executeAll_active {s : TaskQueue} {e : Nat × Nat} (cb : Nat)
    (hpeek : s.internals.peek = some e) :
    s.executeAll (some cb)
      = (.existing e.2, { s with subscriptions := (s.subscriptions.enqueue (.user cb)).2 }) := by
  unfold TaskQueue.executeAll
  dsimp only
  rw [hpeek]

/-- A loop whose cancel token is already set when it first checks stops
without dequeuing anything. -/
theorem mainLoop_cancelled_immediately (env : RunEnv) (i : Nat) (s : TaskQueue)
    (hc : env.cancelledAt i = true) : ∀ fuel, mainLoop env fuel i s = s := by
  intro fuel
  cases fuel with
  | zero => rfl
  | succ fuel' =>
    rw [mainLoop_succ]
    by_cases he : s.tasks.isEmpty = true
    · rw [if_pos he]
    · rw [if_neg he, if_pos hc]

/-! ## Registration order vs drain order (C1) -/


theorem registerTask_success_noauto {s : TaskQueue} (l : Nat) {p : Nat}
    (hauto : s.autoRun = false)
    (hWF : s.tasks.max = (s.tasks.buckets.length : Int) - 1)
    (hp1 : 1 ≤ p) (hpN : p ≤ s.tasks.buckets.length) :
    ∃ b : Bucket Nat, getAtInt s.tasks.buckets ((p : Int) - 1) = some b ∧
      s.registerTask l (p : Int)
        = .ok ((b.nextID, (p : Int)),
            { s with tasks := { s.tasks with
                buckets := setAtInt s.tasks.buckets ((p : Int) - 1) (b.enqueue l).2 } }) := by
  have hg : s.tasks.guardThrows ((p : Int) - 1) = false := by
    unfold PriorityQueue.guardThrows
    rw [hWF]
    simp only [decide_eq_false_iff_not]
    omega
  have h0 : (0 : Int) ≤ (p : Int) - 1 := by omega
  have hlt : ((p : Int) - 1).toNat < s.tasks.buckets.length := by omega
  have hget : ∃ b, getAtInt s.tasks.buckets ((p : Int) - 1) = some b := by
    unfold getAtInt
    rw [if_neg (not_lt_of_le h0), List.get?_eq_getElem?]
    exact ⟨_, List.getElem?_eq_getElem hlt⟩
  obtain ⟨b, hget⟩ := hget
  refine ⟨b, hget, ?_⟩
  obtain ⟨henq, -, -, -⟩ := PriorityQueue.enqueue_spec l hg hget
  unfold TaskQueue.registerTask
  rw [henq]
  dsimp only
  rw [if_neg (by simp [hauto])]

/-- Full characterization of a batch of valid registrations on a scheduler
with `autoRun` off: each level's bucket receives exactly the tasks registered
at that level, in registration order. -/
theorem registerAll_spec :
    ∀ (regs : List (Nat × Nat)) (s : TaskQueue),
      s.autoRun = false →
      s.tasks.max = (s.tasks.buckets.length : Int) - 1 →
      (∀ r ∈ regs, 1 ≤ r.2 ∧ r.2 ≤ s.tasks.buckets.length) →
      (registerAll s regs).tasks.buckets.length = s.tasks.buckets.length ∧
      (registerAll s regs).tasks.length = s.tasks.length + regs.length ∧
      (registerAll s regs).internals = s.internals ∧
      (registerAll s regs).subscriptions = s.subscriptions ∧
      (registerAll s regs).invoked = s.invoked ∧
      (registerAll s regs).autoRun = false ∧
      (registerAll s regs).tasks.max = s.tasks.max ∧
      ∀ ℓ, levelValues (registerAll s regs).tasks ℓ
          = levelValues s.tasks ℓ ++ (regs.filter (fun r => r.2 == ℓ + 1)).map Prod.fst := by
  intro regs
  induction regs with
  | nil =>
    intro s hauto hWF hvalid
    exact ⟨rfl, by simp [registerAll], rfl, rfl, rfl, hauto, rfl, by simp [registerAll]⟩
  | cons reg rest ih =>
    intro s hauto hWF hvalid
    obtain ⟨l, p⟩ := reg
    obtain ⟨hp1, hpN⟩ := hvalid (l, p) (List.mem_cons_self _ _)
    obtain ⟨b, hget, hreg⟩ := registerTask_success_noauto l hauto hWF hp1 hpN
    have hRA : registerAll s ((l, p) :: rest)
        = registerAll { s with tasks := { s.tasks with
            buckets := setAtInt s.tasks.buckets ((p : Int) - 1) (b.enqueue l).2 } } rest := by
      show (match s.registerTask l (p : Int) with
            | .ok r => registerAll r.2 rest
            | .error _ => registerAll s rest) = _
      rw [hreg]
    obtain ⟨-, hlev, hother, hlen⟩ := PriorityQueue.enqueue_spec l (by
      unfold PriorityQueue.guardThrows
      rw [hWF]
      simp only [decide_eq_false_iff_not]
      omega) hget
    set s1 : TaskQueue := { s with tasks := { s.tasks with
        buckets := setAtInt s.tasks.buckets ((p : Int) - 1) (b.enqueue l).2 } } with hs1
    have hlen1 : s1.tasks.buckets.length = s.tasks.buckets.length := by
      rw [hs1]
      exact length_setAtInt _ _ _
    obtain ⟨ih1, ih2, ih3, ih4, ih5, ih6, ih7, ih8⟩ := ih s1
      (by rw [hs1]; exact hauto)
      (by rw [hs1]; dsimp only; rw [length_setAtInt]; exact hWF)
      (by
        intro r hr
        obtain ⟨h1, h2⟩ := hvalid r (List.mem_cons_of_mem _ hr)
        rw [hlen1]
        exact ⟨h1, h2⟩)
    have htoNat : ((p : Int) - 1).toNat = p - 1 := by omega
    rw [hRA]
    refine ⟨by rw [ih1, hlen1], ?_, ih3, ih4, ih5, ih6, by rw [ih7, hs1], ?_⟩
    · rw [ih2]
      have : s1.tasks.length = s.tasks.length + 1 := hlen
      rw [this]
      simp
      omega
    · intro ℓ
      rw [ih8 ℓ]
      by_cases hℓ : ℓ = p - 1
      · subst hℓ
        have hfil : ((l, p) :: rest).filter (fun r => r.2 == (p - 1) + 1)
            = (l, p) :: rest.filter (fun r => r.2 == (p - 1) + 1) := by
          rw [List.filter_cons]
          rw [if_pos (by simp; omega)]
        rw [hfil]
        have : levelValues s1.tasks (p - 1) = levelValues s.tasks (p - 1) ++ [l] := by
          rw [← htoNat]
          exact hlev
        rw [this]
        simp
      · have hfil : ((l, p) :: rest).filter (fun r => r.2 == ℓ + 1)
            = rest.filter (fun r => r.2 == ℓ + 1) := by
          rw [List.filter_cons]
          rw [if_neg (by simp; omega)]
        rw [hfil]
        have : levelValues s1.tasks ℓ = levelValues s.tasks ℓ := by
          apply hother
          omega
        rw [this]

theorem flat_eq_range {T : Type} : ∀ (bs : List (Bucket T)),
    flatValues bs = (List.range bs.length).flatMap
      (fun ℓ => match bs[ℓ]? with | some b => b.values | none => []) := by
  intro bs
  induction bs with
  | nil => rfl
  | cons b rest ih =>
    show Bucket.values b ++ flatValues rest = _
    rw [List.length_cons, List.range_succ_eq_map, List.flatMap_cons]
    simp only [List.getElem?_cons_zero]
    congr 1
    rw [List.flatMap_map]
    simp only [Function.comp, List.getElem?_cons_succ]
    exact ih

theorem flatValues_eq_levels {T : Type} (q : PriorityQueue T) :
    flatValues q.buckets = (List.range q.buckets.length).flatMap (levelValues q) := by
  rw [flat_eq_range]
  rfl

theorem levelValues_new (n ℓ : Nat) :
    levelValues (PriorityQueue.new Nat n) ℓ = [] := by
  unfold levelValues PriorityQueue.new
  dsimp only
  rw [List.getElem?_replicate]
  by_cases h : ℓ < n
  · rw [if_pos h]
    rfl
  · rw [if_neg h]

/-- C1: an `executeAll` run over any batch of registrations invokes every
level-1 task before any level-2 task, before any level-3 task, and so on,
regardless of registration order; within one level, invocation order equals
registration order. -/
theorem executeAll_priority_fifo (n sep y fuelM fuelS : Nat) (regs : List (Nat × Nat))
    (hvalid : ∀ r ∈ regs, 1 ≤ r.2 ∧ r.2 ≤ n)
    (hfuelM : regs.length ≤ fuelM) (hfuelS : 1 ≤ fuelS) :
    (iterateRun noInterference fuelM fuelS
        ((registerAll (TaskQueue.new n false sep y) regs).executeAll none).2).1.invoked
      = (List.range n).flatMap
          (fun ℓ => (regs.filter (fun r => r.2 == ℓ + 1)).map Prod.fst) := by
  set s0 := TaskQueue.new n false sep y with hs0
  have hlen0 : s0.tasks.buckets.length = n := by
    rw [hs0]
    show (List.replicate n (Bucket.empty Nat)).length = n
    exact List.length_replicate n _
  have hWF : s0.tasks.max = (s0.tasks.buckets.length : Int) - 1 := by
    rw [hlen0]
    rfl
  have hlenq0 : s0.tasks.length = 0 := by
    rw [hs0]
    show ((List.replicate n (Bucket.empty Nat)).map Bucket.length).sum = 0
    simp [Bucket.length, Bucket.empty]
  obtain ⟨r1, r2, r3, r4, r5, r6, r7, r8⟩ := registerAll_spec regs s0 rfl hWF
    (by intro r hr; rw [hlen0]; exact hvalid r hr)
  set sR := registerAll s0 regs with hsR
  have hIdle : sR.internals.bucket = [] := by
    rw [r3, hs0]
    rfl
  have hstart := executeAll_start_none hIdle
  set sE : TaskQueue := { sR with
      subscriptions := (sR.subscriptions.enqueue (.removeJob sR.internals.nextID)).2,
      internals := (sR.internals.enqueue sR.nextToken).2,
      nextToken := sR.nextToken + 1,
      runsStarted := sR.runsStarted + 1 } with hsE
  have hEtasks : sE.tasks = sR.tasks := rfl
  have hElen : sE.tasks.length = regs.length := by
    rw [hEtasks, r2, hlenq0]
    omega
  obtain ⟨m1, m2, m3, m4⟩ := mainLoop_drain noInterference regs.length 0 fuelM sE
    hfuelM (le_of_eq hElen.symm)
    (by intro j hj; exact ⟨rfl, rfl⟩)
    (Or.inr hElen)
  set s1 := mainLoop noInterference fuelM 0 sE with hs1
  have hsubs1 : s1.subscriptions = sE.subscriptions := m4.1
  have hsubsE : sE.subscriptions.bucket
      = [(s0.subscriptions.nextID, SubEntry.removeJob sR.internals.nextID)] := by
    rw [hsE]
    dsimp only
    rw [r4, hs0]
    rfl
  have hcond : s1.subscriptions.length ≠ 0 := by
    rw [hsubs1]
    unfold Bucket.length
    rw [hsubsE]
    simp
  have hIR : iterateRun noInterference fuelM fuelS
      ((registerAll (TaskQueue.new n false sep y) regs).executeAll none).2
      = (subsLoop (fun _ => false) fuelS 0 s1, true) := by
    rw [← hs0, ← hsR, hstart]
    show iterateRun noInterference fuelM fuelS sE = _
    unfold iterateRun
    rw [← hs1, if_pos hcond]
  rw [hIR]
  have hfuelS' : s1.subscriptions.length ≤ fuelS := by
    rw [hsubs1]
    unfold Bucket.length
    rw [hsubsE]
    simpa using hfuelS
  obtain ⟨d1, d2, d3, d4⟩ := subsLoop_drain fuelS 0 s1 hfuelS'
  dsimp only
  rw [d1, hsubs1, hsubsE]
  have hinv1 : s1.invoked = flatValues sR.tasks.buckets := by
    rw [m1]
    have hEinv : sE.invoked = [] := by
      rw [hsE]
      dsimp only
      rw [r5, hs0]
      rfl
    rw [hEinv, hEtasks]
    have : (flatValues sR.tasks.buckets).length = regs.length := by
      rw [length_flatValues]
      have := hElen
      rw [hEtasks] at this
      exact this
    rw [List.take_of_length_le (le_of_eq this)]
    simp
  rw [hinv1]
  have hlevels : ∀ ℓ, levelValues sR.tasks ℓ
      = (regs.filter (fun r => r.2 == ℓ + 1)).map Prod.fst := by
    intro ℓ
    rw [r8 ℓ, hs0]
    rw [show levelValues (TaskQueue.new n false sep y).tasks ℓ
        = levelValues (PriorityQueue.new Nat n) ℓ from rfl]
    rw [levelValues_new]
    simp
  rw [flatValues_eq_levels]
  have hlenR : sR.tasks.buckets.length = n := by rw [r1, hlen0]
  rw [hlenR]
  have hfn : levelValues sR.tasks = fun ℓ =>
      (regs.filter (fun r => r.2 == ℓ + 1)).map Prod.fst := funext hlevels
  rw [hfn]
  simp [subUserLabels]

/-! ## C4: mid-run cancellation freezes the remainder -/

theorem executeAll_invoked_frame {s : TaskQueue} (hIdle : s.internals.bucket = []) :
    (s.executeAll none).2.invoked = s.invoked := by
  rw [executeAll_start_none hIdle]

/-- C4: cancelling the run returned by `executeAll` after `k` tasks have been
dequeued (the token is observed set from iteration `k` on) stops the loop at
its next check: exactly the first `k` values of the level-major sequence were
invoked — the cancel never retracts a task already invoked — and every entry
still queued at that moment stays queued, untouched. -/
theorem executeAll_cancel_freezes (s : TaskQueue) (k fuelM : Nat)
    (hIdle : s.internals.bucket = [])
    (hk : k ≤ s.tasks.length) (hfuel : k ≤ fuelM) :
    (mainLoop (cancelAfter k) fuelM 0 (s.executeAll none).2).invoked
        = s.invoked ++ (s.tasks.allValues).take k ∧
    (mainLoop (cancelAfter k) fuelM 0 (s.executeAll none).2).tasks.allValues
        = (s.tasks.allValues).drop k ∧
    (mainLoop (cancelAfter k) fuelM 0 (s.executeAll none).2).tasks.length
        = s.tasks.length - k := by
  have ht : (s.executeAll none).2.tasks = s.tasks := executeAll_tasks_frame s none
  have hi : (s.executeAll none).2.invoked = s.invoked := executeAll_invoked_frame hIdle
  obtain ⟨m1, m2, m3, -⟩ := mainLoop_drain (cancelAfter k) k 0 fuelM (s.executeAll none).2
    hfuel (by rw [ht]; exact hk)
    (by
      intro j hj
      constructor
      · show decide (k ≤ 0 + j) = false
        simp
        omega
      · rfl)
    (by
      left
      show decide (k ≤ 0 + k) = true
      simp)
  rw [allValues_eq_flatValues, allValues_eq_flatValues]
  refine ⟨?_, ?_, ?_⟩
  · rw [m1, hi, ht]
  · rw [m2, ht]
  · rw [m3, ht]

/-! ## C6: when the subscriptions drain starts -/

/-- C6 (amended): the secondary cancellable execution over the subscriptions
registry (zero task separation, its own fresh token that nobody can cancel)
is started whenever the main loop stops — whether the signal sequence is
exhausted because the queue is empty, or the loop was stopped early by the
cancellation check — provided the registry is non-empty at that moment; in
particular a cancelled run still drains the completion subscriptions. -/
theorem subscriptions_drain_on_stop :
    (∀ (env : RunEnv) (fuelM fuelS : Nat) (s : TaskQueue),
        (iterateRun env fuelM fuelS s).2 = true
          ↔ (mainLoop env fuelM 0 s).subscriptions.length ≠ 0) ∧
    (∀ (s : TaskQueue) (fuelM fuelS : Nat), s.subscriptions.length ≠ 0 →
        s.subscriptions.length ≤ fuelS →
        (iterateRun (cancelAfter 0) fuelM fuelS s).2 = true ∧
        (iterateRun (cancelAfter 0) fuelM fuelS s).1.tasks = s.tasks ∧
        (iterateRun (cancelAfter 0) fuelM fuelS s).1.invoked
            = s.invoked ++ subUserLabels s.subscriptions.bucket ∧
        (iterateRun (cancelAfter 0) fuelM fuelS s).1.subscriptions.bucket = []) := by
  have hIR : ∀ (env : RunEnv) (fuelM fuelS : Nat) (s : TaskQueue),
      iterateRun env fuelM fuelS s
        = if (mainLoop env fuelM 0 s).subscriptions.length ≠ 0
          then (subsLoop (fun _ => false) fuelS 0 (mainLoop env fuelM 0 s), true)
          else (mainLoop env fuelM 0 s, false) := by
    intro env fuelM fuelS s
    unfold iterateRun
    by_cases h : (mainLoop env fuelM 0 s).subscriptions.length ≠ 0
    · rw [if_pos h]
    · rw [if_neg h]
  constructor
  · intro env fuelM fuelS s
    rw [hIR]
    by_cases h : (mainLoop env fuelM 0 s).subscriptions.length ≠ 0
    · rw [if_pos h]
      simpa using h
    · rw [if_neg h]
      simpa using h
  · intro s fuelM fuelS hne hfS
    have hML : mainLoop (cancelAfter 0) fuelM 0 s = s :=
      mainLoop_cancelled_immediately (cancelAfter 0) 0 s (by rfl) fuelM
    obtain ⟨d1, d2, d3, d4⟩ := subsLoop_drain fuelS 0 s hfS
    rw [hIR, hML, if_pos hne]
    exact ⟨rfl, d4, d1, d2⟩


/-- C6 counterexample: a run stopped early by the cancellation check — the
token reads set at the very first iteration, the queue still holding its one
task — nevertheless starts the subscriptions drain: the completion callback
`7` is invoked even though the driving queue was never exhausted. -/
theorem c6_cancelled_run_still_drains :
    (iterateRun (cancelAfter 0) 10 10 c6state).2 = true ∧
    (iterateRun (cancelAfter 0) 10 10 c6state).1.tasks.length = 1 ∧
    (iterateRun (cancelAfter 0) 10 10 c6state).1.invoked = [7] := by
  refine ⟨rfl, rfl, rfl⟩

/-! ## C2: at most one active run; every completion callback honored -/

theorem executeAll_invoked_frame2 (s : TaskQueue) (oc : Option Nat) :
    (s.executeAll oc).2.invoked = s.invoked := by
  unfold TaskQueue.executeAll
  cases oc with
  | none => cases hp : s.internals.peek <;> simp [hp, cancellableExecutionStart]
  | some cb =>
    cases hp : ({ s with subscriptions := (s.subscriptions.enqueue (.user cb)).2 } :
        TaskQueue).internals.peek <;> simp [hp, cancellableExecutionStart]

/-- C2: calling `executeAll` three times in immediate succession on a
scheduler with no active run starts exactly one underlying run — the second
and third call return the already-stored cancel function and add nothing to
`internals` — while each call's completion callback is still enqueued, and
when the single run finishes, the three callbacks fire exactly once each, in
call order, after all queued tasks. -/
theorem executeAll_dedup (s : TaskQueue) (cb1 cb2 cb3 : Nat) (fuelM fuelS : Nat)
    (hIdle : s.internals.bucket = []) (hSubs : s.subscriptions.bucket = [])
    (hfuelM : s.tasks.length ≤ fuelM) (hfuelS : 4 ≤ fuelS) :
    (s.executeAll (some cb1)).1 = .newRun s.nextToken s.internals.nextID ∧
    ((s.executeAll (some cb1)).2.executeAll (some cb2)).1 = .existing s.nextToken ∧
    (((s.executeAll (some cb1)).2.executeAll (some cb2)).2.executeAll (some cb3)).1
        = .existing s.nextToken ∧
    (((s.executeAll (some cb1)).2.executeAll (some cb2)).2.executeAll
        (some cb3)).2.runsStarted = s.runsStarted + 1 ∧
    (((s.executeAll (some cb1)).2.executeAll (some cb2)).2.executeAll
        (some cb3)).2.internals.length = 1 ∧
    (iterateRun noInterference fuelM fuelS (((s.executeAll (some cb1)).2.executeAll
        (some cb2)).2.executeAll (some cb3)).2).1.invoked
        = s.invoked ++ s.tasks.allValues ++ [cb1, cb2, cb3] ∧
    (iterateRun noInterference fuelM fuelS (((s.executeAll (some cb1)).2.executeAll
        (some cb2)).2.executeAll (some cb3)).2).1.internals.bucket = [] := by
  have h1 := executeAll_start_some cb1 hIdle
  have hS1subs : (s.executeAll (some cb1)).2.subscriptions.bucket
      = [(s.subscriptions.nextID, SubEntry.user cb1),
         (s.subscriptions.nextID + 1, SubEntry.removeJob s.internals.nextID)] := by
    rw [h1]
    simp [Bucket.enqueue, hSubs]
  have hS1snid : (s.executeAll (some cb1)).2.subscriptions.nextID
      = s.subscriptions.nextID + 2 := by
    rw [h1]
    simp [Bucket.enqueue]
  have hS1int : (s.executeAll (some cb1)).2.internals.bucket
      = [(s.internals.nextID, s.nextToken)] := by
    rw [h1]
    simp [Bucket.enqueue, hIdle]
  have hS1peek : (s.executeAll (some cb1)).2.internals.peek
      = some (s.internals.nextID, s.nextToken) := by
    unfold Bucket.peek
    rw [hS1int]
  have h2 := executeAll_active cb2 hS1peek
  have hS2int : ((s.executeAll (some cb1)).2.executeAll (some cb2)).2.internals.bucket
      = [(s.internals.nextID, s.nextToken)] := by
    rw [h2]
    exact hS1int
  have hS2peek : ((s.executeAll (some cb1)).2.executeAll (some cb2)).2.internals.peek
      = some (s.internals.nextID, s.nextToken) := by
    unfold Bucket.peek
    rw [hS2int]
  have hS2subs : ((s.executeAll (some cb1)).2.executeAll (some cb2)).2.subscriptions.bucket
      = [(s.subscriptions.nextID, SubEntry.user cb1),
         (s.subscriptions.nextID + 1, SubEntry.removeJob s.internals.nextID),
         (s.subscriptions.nextID + 2, SubEntry.user cb2)] := by
    rw [h2]
    show ((s.executeAll (some cb1)).2.subscriptions.enqueue (.user cb2)).2.bucket = _
    unfold Bucket.enqueue
    rw [hS1subs, hS1snid]
    rfl
  have hS2snid : ((s.executeAll (some cb1)).2.executeAll (some cb2)).2.subscriptions.nextID
      = s.subscriptions.nextID + 3 := by
    rw [h2]
    show ((s.executeAll (some cb1)).2.subscriptions.enqueue (.user cb2)).2.nextID = _
    unfold Bucket.enqueue
    rw [hS1snid]
  have h3 := executeAll_active cb3 hS2peek
  set S3 := (((s.executeAll (some cb1)).2.executeAll (some cb2)).2.executeAll (some cb3)).2
    with hS3
  have hS3int : S3.internals.bucket = [(s.internals.nextID, s.nextToken)] := by
    rw [hS3, h3]
    exact hS2int
  have hS3subs : S3.subscriptions.bucket
      = [(s.subscriptions.nextID, SubEntry.user cb1),
         (s.subscriptions.nextID + 1, SubEntry.removeJob s.internals.nextID),
         (s.subscriptions.nextID + 2, SubEntry.user cb2),
         (s.subscriptions.nextID + 3, SubEntry.user cb3)] := by
    rw [hS3, h3]
    show (((s.executeAll (some cb1)).2.executeAll (some cb2)).2.subscriptions.enqueue
      (.user cb3)).2.bucket = _
    unfold Bucket.enqueue
    rw [hS2subs, hS2snid]
    rfl
  have hS3tasks : S3.tasks = s.tasks := by
    rw [hS3, executeAll_tasks_frame, executeAll_tasks_frame, executeAll_tasks_frame]
  have hS3inv : S3.invoked = s.invoked := by
    rw [hS3, executeAll_invoked_frame2, executeAll_invoked_frame2, executeAll_invoked_frame2]
  have hS3rs : S3.runsStarted = s.runsStarted + 1 := by
    rw [hS3, h3]
    show ((s.executeAll (some cb1)).2.executeAll (some cb2)).2.runsStarted = _
    rw [h2]
    show (s.executeAll (some cb1)).2.runsStarted = _
    rw [h1]
  obtain ⟨m1, m2, m3, m4⟩ := mainLoop_drain noInterference s.tasks.length 0 fuelM S3
    hfuelM (by rw [hS3tasks])
    (by intro j hj; exact ⟨rfl, rfl⟩)
    (by right; rw [hS3tasks])
  set s4 := mainLoop noInterference fuelM 0 S3 with hs4
  have hs4subs : s4.subscriptions = S3.subscriptions := m4.1
  have hs4int : s4.internals = S3.internals := m4.2.1
  have hs4inv : s4.invoked = s.invoked ++ flatValues s.tasks.buckets := by
    rw [m1, hS3inv, hS3tasks]
    congr 1
    have hlen : (flatValues S3.tasks.buckets).length = s.tasks.length := by
      rw [length_flatValues, hS3tasks]
      rfl
    rw [hS3tasks] at hlen
    exact List.take_of_length_le (le_of_eq hlen)
  have hcond : s4.subscriptions.length ≠ 0 := by
    rw [hs4subs]
    unfold Bucket.length
    rw [hS3subs]
    simp
  have hIR : iterateRun noInterference fuelM fuelS S3
      = (subsLoop (fun _ => false) fuelS 0 s4, true) := by
    unfold iterateRun
    rw [← hs4, if_pos hcond]
  obtain ⟨d1, d2, d3, d4⟩ := subsLoop_drain fuelS 0 s4
    (by rw [hs4subs]; unfold Bucket.length; rw [hS3subs]; simpa using hfuelS)
  refine ⟨by rw [h1], by rw [h2], by rw [h3], hS3rs, ?_, ?_, ?_⟩
  · unfold Bucket.length
    rw [hS3int]
    rfl
  · rw [hIR]
    dsimp only
    rw [d1, hs4inv, hs4subs, hS3subs]
    rw [allValues_eq_flatValues]
    simp [subUserLabels]
  · rw [hIR]
    dsimp only
    rw [d3, hs4int, hs4subs, hS3subs]
    simp only [deleteJobs]
    simp [Bucket.delete, hS3int]

/-! ## Concrete instances of the theorems above -/

theorem executeAll_priority_fifo_witness :
    (iterateRun noInterference 3 1
        ((registerAll (TaskQueue.new 3 false 0 5) [(10, 3), (11, 1), (12, 2)]).executeAll
          none).2).1.invoked
      = (List.range 3).flatMap
          (fun ℓ => (([(10, 3), (11, 1), (12, 2)] : List (Nat × Nat)).filter
            (fun r => r.2 == ℓ + 1)).map Prod.fst) :=
  executeAll_priority_fifo 3 0 5 3 1 [(10, 3), (11, 1), (12, 2)]
    (by decide) (by decide) (by decide)

theorem executeAll_dedup_witness :
    (iterateRun noInterference 0 4 ((((TaskQueue.new 1 false 0 5).executeAll
        (some 21)).2.executeAll (some 22)).2.executeAll (some 23)).2).1.invoked
      = (TaskQueue.new 1 false 0 5).invoked
          ++ (TaskQueue.new 1 false 0 5).tasks.allValues ++ [21, 22, 23] :=
  (executeAll_dedup (TaskQueue.new 1 false 0 5) 21 22 23 0 4
    rfl rfl (by decide) (by decide)).2.2.2.2.2.1

theorem deferTask_cancel_safe_witness :
    TimerDead ((TaskQueue.new 1 false 0 5).deferTask 3 2).1.1
      (applyDeferCancel ((TaskQueue.new 1 false 0 5).deferTask 3 2).1
        ((TaskQueue.new 1 false 0 5).deferTask 3 2).2) :=
  (deferTask_cancel_safe (TaskQueue.new 1 false 0 5) 3 2
    (by intro t ht; exact absurd ht (List.not_mem_nil t))).1

theorem executeAll_cancel_freezes_witness :
    (mainLoop (cancelAfter 1) 1 0
        ((registerAll (TaskQueue.new 3 false 5 5) [(1, 1), (2, 2), (3, 3)]).executeAll
          none).2).tasks.length
      = (registerAll (TaskQueue.new 3 false 5 5) [(1, 1), (2, 2), (3, 3)]).tasks.length - 1 :=
  (executeAll_cancel_freezes (registerAll (TaskQueue.new 3 false 5 5) [(1, 1), (2, 2), (3, 3)])
    1 1 (by decide) (by decide) (by decide)).2.2

theorem registerTask_range_guard_witness :
    (TaskQueue.new 2 false 0 5).registerTask 9 3 = .error .outOfRange :=
  (registerTask_range_guard (TaskQueue.new 2 false 0 5) 9 3 (by decide)).1 (by decide)

theorem subscriptions_drain_on_stop_witness :
    (iterateRun (cancelAfter 0) 10 10 c6state).1.invoked
      = c6state.invoked ++ subUserLabels c6state.subscriptions.bucket :=
  (subscriptions_drain_on_stop.2 c6state 10 10 (by decide) (by decide)).2.2.1

theorem deferTask_fire_then_remove_witness :
    ((tickN 5 ((TaskQueue.new 1 false 0 5).deferTask 3 2).2).fireTimer
        ((TaskQueue.new 1 false 0 5).deferTask 3 2).1.1).invoked
      = (TaskQueue.new 1 false 0 5).invoked ++ [3] :=
  ((deferTask_fire_then_remove (TaskQueue.new 1 false 0 5) 3 2 5
    (by intro t ht; exact absurd ht (List.not_mem_nil t))
    (by intro e he; exact absurd he (List.not_mem_nil e))).2 (by decide)).1

theorem clearPendingTasks_spec_witness :
    (((TaskQueue.new 2 false 0 5).deferTask 7 100).2).clearPendingTasks.deferredTasks.length
      = 0 :=
  (clearPendingTasks_spec (((TaskQueue.new 2 false 0 5).deferTask 7 100).2)
    (by decide)).2.1

theorem executeTasksWithPriority_no_marker_witness :
    ∃ s', (TaskQueue.new 3 false 0 5).executeTasksWithPriority 2 (some 4)
        = .ok (.scoped (TaskQueue.new 3 false 0 5).nextToken, s') ∧
      s'.internals = (TaskQueue.new 3 false 0 5).internals ∧
      s'.getCancelFN = none ∧
      s'.runsStarted = (TaskQueue.new 3 false 0 5).runsStarted + 1 ∧
      (∃ j, (s'.executeAll none).1 = .newRun s'.nextToken j ∧
        (s'.executeAll none).2.runsStarted = s'.runsStarted + 1) :=
  executeTasksWithPriority_no_marker (TaskQueue.new 3 false 0 5) 2 (some 4)
    rfl (by decide) ⟨Bucket.empty Nat, rfl⟩

theorem cancel_functions_idempotent_witness :
    applyRegCancel (0, 1) (TaskQueue.new 2 false 0 5)
        = Except.ok (TaskQueue.new 2 false 0 5) ∧
    applyDeferCancel (0, 0) (applyDeferCancel (0, 0) (TaskQueue.new 2 false 0 5))
        = applyDeferCancel (0, 0) (TaskQueue.new 2 false 0 5) ∧
    applyRunCancel 0 0 (applyRunCancel 0 0 (TaskQueue.new 2 false 0 5))
        = applyRunCancel 0 0 (TaskQueue.new 2 false 0 5) :=
  ⟨cancel_functions_idempotent.1 (TaskQueue.new 2 false 0 5) (0, 1)
      (TaskQueue.new 2 false 0 5) rfl,
   cancel_functions_idempotent.2.1 (TaskQueue.new 2 false 0 5) (0, 0),
   cancel_functions_idempotent.2.2 (TaskQueue.new 2 false 0 5) 0 0⟩

end TaskQueueModel
